import Mathlib

/-
Verification of the core of go-video-transcoder.

The development shallowly embeds the Go sources:
  * package `ownedfile` (sidecar `.owner` marker files over a filesystem),
  * package `workqueue` (bounded work channel with blocking and
    non-blocking submission),
  * the `main` package's upload admission, fast/slow processing stages and
    the startup recovery scan.

The filesystem is modelled as an association list from paths to file
contents.  Operating-system calls that the Go code checks for errors
(`os.Remove`, `os.Rename`, `os.Create`, `WriteString`, `Close`,
`ioutil.ReadFile`) are modelled with an explicit error-injection
environment `OsEnv`; `OsEnv.clean` is the run in which no OS call fails
spuriously, and the only "natural" failure is `notExist` for operations on
missing files.  All `ownedfile.Collection` operations run under one mutex
in Go, so they are modelled as atomic sequential state transformers.
-/

namespace GoVT

/-! ## Go string primitives

Go `strings.HasSuffix`, `strings.TrimSuffix` and `strings.Split` (on the
one-character separator "/", the only use in the sources), modelled on
`List Char` and wrapped for `String`. -/

/-- Model of Go `strings.HasSuffix` on character lists. -/
def hasSuffixL (s suffix : List Char) : Bool := decide (suffix <:+ s)

/-- Model of Go `strings.TrimSuffix` on character lists: drops the suffix
when present, otherwise returns the input unchanged. -/
def trimSuffixL (s suffix : List Char) : List Char :=
  if hasSuffixL s suffix then s.take (s.length - suffix.length) else s

/-- Model of Go `strings.Split(s, "/")` on character lists: splits at every
separator character, never returning an empty list of parts. -/
def splitSepL (sep : Char) : List Char → List (List Char)
  | [] => [[]]
  | c :: rest =>
    match splitSepL sep rest with
    | [] => [[]]
    | h :: t => if c = sep then [] :: h :: t else (c :: h) :: t

/-- Go `strings.HasSuffix` on `String`. -/
def goHasSuffix (s suffix : String) : Bool := hasSuffixL s.data suffix.data

/-- Go `strings.TrimSuffix` on `String`. -/
def goTrimSuffix (s suffix : String) : String := ⟨trimSuffixL s.data suffix.data⟩

/-- Go `strings.Split(s, "/")` on `String`. -/
def goSplitSlash (s : String) : List String := (splitSepL '/' s.data).map String.mk

theorem hasSuffixL_append (t s : List Char) : hasSuffixL (t ++ s) s = true := by
  simp [hasSuffixL]

theorem trimSuffixL_append (t s : List Char) : trimSuffixL (t ++ s) s = t := by
  have hlen : (t ++ s).length - s.length = t.length := by simp [List.length_append]
  simp only [trimSuffixL, hasSuffixL_append, if_pos rfl, hlen, if_true]
  exact List.take_left t s

theorem splitSepL_no_sep (sep : Char) (l : List Char) (h : sep ∉ l) :
    splitSepL sep l = [l] := by
  induction l with
  | nil => rfl
  | cons c rest ih =>
    have hc : c ≠ sep := fun hcs => h (hcs ▸ List.mem_cons_self c rest)
    have hrest : sep ∉ rest := fun hm => h (List.mem_cons_of_mem c hm)
    simp only [splitSepL, ih hrest, if_neg hc]

theorem goTrimSuffix_append (t s : String) : goTrimSuffix (t ++ s) s = t := by
  apply String.ext
  show trimSuffixL (t ++ s).data s.data = t.data
  rw [String.data_append]
  exact trimSuffixL_append t.data s.data

theorem goSplitSlash_no_slash (s : String) (h : '/' ∉ s.data) :
    goSplitSlash s = [s] := by
  unfold goSplitSlash
  rw [splitSepL_no_sep '/' s.data h]
  rfl

theorem goHasSuffix_append (t s : String) : goHasSuffix (t ++ s) s = true := by
  unfold goHasSuffix
  rw [String.data_append]
  exact hasSuffixL_append t.data s.data

/-! ## Filesystem model -/

/-- A filesystem path (Go `string`). -/
abbrev Path := String

/-- The filesystem: an association list from paths to file contents.
`fsGet` reads through the first matching entry; the mutating operations
keep keys unique. -/
abbrev FS := List (Path × String)

/-- Contents of the file at `p`, if it exists. -/
def fsGet : FS → Path → Option String
  | [], _ => none
  | (q, v) :: rest, p => if p = q then some v else fsGet rest p

/-- Remove every entry for path `p`. -/
def fsErase (fs : FS) (p : Path) : FS := fs.filter (fun e => e.1 ≠ p)

/-- Create or replace the file at `p` with contents `v`. -/
def fsSet (fs : FS) (p : Path) (v : String) : FS := (p, v) :: fsErase fs p

theorem fsGet_fsErase (fs : FS) (p q : Path) :
    fsGet (fsErase fs p) q = if q = p then none else fsGet fs q := by
  induction fs with
  | nil => simp [fsErase, fsGet]
  | cons e rest ih =>
    by_cases h1 : e.1 = p
    · by_cases h2 : q = p <;>
        simp_all [fsErase, fsGet, List.filter]
    · have : (e.1 ≠ p) = True := by simp [h1]
      by_cases h2 : q = e.1 <;> by_cases h3 : q = p <;>
        simp_all [fsErase, fsGet, List.filter]

theorem fsGet_fsSet (fs : FS) (p q : Path) (v : String) :
    fsGet (fsSet fs p v) q = if q = p then some v else fsGet fs q := by
  by_cases h : q = p <;> simp [fsSet, fsGet, h, fsGet_fsErase]

theorem fsErase_of_not_present (fs : FS) (p : Path) (h : fsGet fs p = none) :
    fsErase fs p = fs := by
  induction fs with
  | nil => rfl
  | cons e rest ih =>
    by_cases h1 : p = e.1
    · subst h1; simp [fsGet] at h
    · simp only [fsGet, if_neg h1] at h
      have hne : e.1 ≠ p := fun hh => h1 hh.symm
      simp only [fsErase] at ih ⊢
      rw [List.filter_cons_of_pos (by simp [hne]), ih h]

/-! ## Go error values and OS calls -/

/-- Go `error` values that the embedded code distinguishes:
`permissionDenied file` is `ownedfile.permissionDeniedError{file: file}`;
`notExist` is any OS error satisfying `os.IsNotExist`; `goError msg` is any
other error (OS I/O failures, `errors.New(msg)` values). -/
inductive GoErr where
  | permissionDenied (file : Path)
  | notExist
  | goError (msg : String)
deriving DecidableEq, Repr

/-- Model of Go `ownedfile.IsPermissionDenied` (type switch on
`*permissionDeniedError`). -/
def IsPermissionDenied : Option GoErr → Bool
  | some (.permissionDenied _) => true
  | _ => false

/-- Model of Go `os.IsNotExist` on a non-nil error. -/
def osIsNotExist : GoErr → Bool
  | .notExist => true
  | _ => false

/-- Injected OS failures.  Each field gives, per path, the error that the
corresponding OS call spuriously reports at that path in this run; `none`
means the call behaves normally.  `writeErr` also carries the partial file
contents left behind by the failed write.  `OsEnv.clean` is the run with no
injected failures. -/
structure OsEnv where
  readErr : Path → Option GoErr
  createErr : Path → Option GoErr
  writeErr : Path → Option (GoErr × String)
  closeErr : Path → Option GoErr
  removeErr : Path → Option GoErr
  renameErr : Path → Path → Option GoErr

/-- The environment in which no OS call fails spuriously. -/
def OsEnv.clean : OsEnv :=
  ⟨fun _ => none, fun _ => none, fun _ => none, fun _ => none,
   fun _ => none, fun _ _ => none⟩

/-- Model of Go `ioutil.ReadFile`. -/
def ioReadFile (env : OsEnv) (fs : FS) (p : Path) : Except GoErr String :=
  match env.readErr p with
  | some e => .error e
  | none =>
    match fsGet fs p with
    | some s => .ok s
    | none => .error .notExist

/-- Model of the `os.Stat(p); err == nil` probe used by the owner-creation
code: true exactly when a file exists at `p`. -/
def osStatOk (fs : FS) (p : Path) : Bool := (fsGet fs p).isSome

/-- Model of Go `os.Create`: creates (or truncates to) an empty file. -/
def osCreate (env : OsEnv) (fs : FS) (p : Path) : Except GoErr FS :=
  match env.createErr p with
  | some e => .error e
  | none => .ok (fsSet fs p "")

/-- Model of Go `File.WriteString` on the file at `p`: on an injected
failure the file keeps the partial contents chosen by the environment. -/
def fileWriteString (env : OsEnv) (fs : FS) (p : Path) (s : String) :
    Option GoErr × FS :=
  match env.writeErr p with
  | some (e, part) => (some e, fsSet fs p part)
  | none => (none, fsSet fs p s)

/-- Model of Go `File.Close` on the file at `p`. -/
def fileClose (env : OsEnv) (p : Path) : Option GoErr := env.closeErr p

/-- Model of Go `os.Remove`. -/
def osRemove (env : OsEnv) (fs : FS) (p : Path) : Option GoErr × FS :=
  match env.removeErr p with
  | some e => (some e, fs)
  | none =>
    match fsGet fs p with
    | some _ => (none, fsErase fs p)
    | none => (some .notExist, fs)

/-- Model of Go `os.Rename`. -/
def osRename (env : OsEnv) (fs : FS) (src dst : Path) : Option GoErr × FS :=
  match env.renameErr src dst with
  | some e => (some e, fs)
  | none =>
    match fsGet fs src with
    | some v => (none, fsSet (fsErase fs src) dst v)
    | none => (some .notExist, fs)

/-! ## Package `ownedfile`

Direct translation of `ownedfile.go`.  The Go helpers are named
`unsafeReadOwner` / `unsafeCreateOwner` / `unsafeCheckOwner` ("unsafe"
meaning "caller must hold the collection mutex"); here they are named with
a `raw` prefix.  The `Collection` methods wrap them in the mutex, so each
method is one atomic state transformer. -/

namespace ownedfile

/-- Go `getOwnerPath`: the sidecar marker path for a data path. -/
def getOwnerPath (file : Path) : Path := file ++ ".owner"

/-- Go helper reading the marker contents (source name with an `unsafe`
prefix in place of `raw`). -/
def rawReadOwner (env : OsEnv) (fs : FS) (file : Path) : Except GoErr String :=
  ioReadFile env fs (getOwnerPath file)

/-- Go helper creating the marker file (source name with an `unsafe` prefix
in place of `raw`): existence probe, create, write, close, with removal of
the partial marker if the write or the close fails. -/
def rawCreateOwner (env : OsEnv) (fs : FS) (file owner : Path) :
    Option GoErr × FS :=
  let ownerPath := getOwnerPath file
  if osStatOk fs ownerPath then (some (.permissionDenied file), fs)
  else
    match osCreate env fs ownerPath with
    | .error e => (some e, fs)
    | .ok fs1 =>
      match fileWriteString env fs1 ownerPath owner with
      | (some e, fs2) => (some e, (osRemove env fs2 ownerPath).2)
      | (none, fs2) =>
        match fileClose env ownerPath with
        | some e => (some e, (osRemove env fs2 ownerPath).2)
        | none => (none, fs2)

/-- Go helper comparing the marker contents with `owner` (source name with
an `unsafe` prefix in place of `raw`): read errors propagate, a mismatch is
a permission-denied error. -/
def rawCheckOwner (env : OsEnv) (fs : FS) (file owner : Path) : Option GoErr :=
  match rawReadOwner env fs file with
  | .error e => some e
  | .ok fileOwner =>
    if fileOwner = owner then none else some (.permissionDenied file)

/-- Go `Collection.Create`. -/
def Collection.Create (env : OsEnv) (fs : FS) (path owner : Path) :
    Option GoErr × FS :=
  rawCreateOwner env fs path owner

/-- Go `Collection.Move`: owner check, then `os.Rename`. -/
def Collection.Move (env : OsEnv) (fs : FS) (src path owner : Path) :
    Option GoErr × FS :=
  match rawCheckOwner env fs path owner with
  | some e => (some e, fs)
  | none => osRename env fs src path

/-- Go `Collection.Delete`: owner check, then removal of the data file
(tolerating `os.IsNotExist`), then removal of the marker file. -/
def Collection.Delete (env : OsEnv) (fs : FS) (path owner : Path) :
    Option GoErr × FS :=
  match rawCheckOwner env fs path owner with
  | some e => (some e, fs)
  | none =>
    match osRemove env fs path with
    | (some e, fs1) =>
      if osIsNotExist e then osRemove env fs1 (getOwnerPath path)
      else (some e, fs1)
    | (none, fs1) => osRemove env fs1 (getOwnerPath path)

/-- Go `Collection.ReadOwner`. -/
def Collection.ReadOwner (env : OsEnv) (fs : FS) (path : Path) :
    Except GoErr String :=
  rawReadOwner env fs path

end ownedfile

/-! ## Package `workqueue`

Translation of `workqueue.go` (the revision with `AddBlocking` and
`AddIfSpace`).  The Go channel `work chan Work` of capacity 1024 is
modelled as a FIFO list bounded by `cap`; the `Work` closures are an
abstract element type.  `AddIfSpace` is the `select`-with-`default`
non-blocking send; `AddBlocking` is the plain channel send, whose
completed effect is an enqueue (`WQStep` below models its suspension on a
full channel). -/

namespace workqueue

/-- The channel capacity fixed by the constructor `New`:
`make(chan Work, 1024)`. -/
def chanCap : Nat := 1024

/-- A work queue: the channel capacity and the FIFO contents of the
channel. -/
structure WorkQueue (α : Type) where
  cap : Nat
  items : List α
deriving DecidableEq, Repr

/-- Go `New(workerCount)`: channel of capacity 1024, initially empty (the
`workerCount` executors it also starts appear in the model as `drain`
transitions of `WQStep`). -/
def New (α : Type) (_workerCount : Nat) : WorkQueue α := ⟨chanCap, []⟩

/-- Go `WorkQueue.AddIfSpace`: non-blocking send; reports whether the item
was enqueued. -/
def WorkQueue.AddIfSpace {α : Type} (q : WorkQueue α) (w : α) :
    WorkQueue α × Bool :=
  if q.items.length < q.cap then ({ q with items := q.items ++ [w] }, true)
  else (q, false)

/-- Go `WorkQueue.AddBlocking`: the effect of the blocking send once it
completes is an unconditional enqueue; it returns nothing (no failure is
reportable).  Its suspension on a full channel is captured by `WQStep`. -/
def WorkQueue.AddBlocking {α : Type} (q : WorkQueue α) (w : α) : WorkQueue α :=
  { q with items := q.items ++ [w] }

/-- Repeated `AddIfSpace`, left to right; the flag records whether every
submission reported success. -/
def addAllIfSpace {α : Type} (q : WorkQueue α) : List α → WorkQueue α × Bool
  | [] => (q, true)
  | w :: ws =>
    match q.AddIfSpace w with
    | (q1, true) => addAllIfSpace q1 ws
    | (q1, false) => (q1, false)

/-- Observable channel interactions: the two outcomes of the non-blocking
send, completion of a blocking send, and an executor draining one item. -/
inductive WQEvent (α : Type) where
  | addIfSpaceOk (w : α)
  | addIfSpaceFull (w : α)
  | addBlockingDone (w : α)
  | drain (w : α)

/-- Small-step semantics of the Go channel of capacity `cap`, as used by
the work queue: a non-blocking send succeeds exactly on a non-full
channel and fails (leaving the channel unchanged) exactly on a full one; a
blocking send can complete only on a non-full channel — on a full channel
the caller stays suspended until a `drain` step by an executor frees a
slot — and its completion always enqueues. -/
inductive WQStep {α : Type} (cap : Nat) : List α → WQEvent α → List α → Prop where
  | ifSpaceOk (q : List α) (w : α) (h : q.length < cap) :
      WQStep cap q (.addIfSpaceOk w) (q ++ [w])
  | ifSpaceFull (q : List α) (w : α) (h : cap ≤ q.length) :
      WQStep cap q (.addIfSpaceFull w) q
  | blockingDone (q : List α) (w : α) (h : q.length < cap) :
      WQStep cap q (.addBlockingDone w) (q ++ [w])
  | drainItem (w : α) (q : List α) :
      WQStep cap (w :: q) (.drain w) q

end workqueue

/-! ## Package `main`

Translation of the orchestration code (`main.go`, the revision with the
download/rename commit point, `uploadHandler` backpressure rollback and
`queuePendingVideosToTranscode`).  The global configuration strings become
an explicit `Config`; the external transcoding tool (`transcode` package
shelling out to exiftool/avprobe/avconv) is a black box whose per-call
outcomes are supplied by a `ToolEnv`. -/

/-- The global path/URI configuration resolved in `main()`:
`tempBase`, `serveBase`, `storageUri`, `apiUri`. -/
structure Config where
  tempBase : Path
  serveBase : Path
  storageUri : String
  apiUri : String
deriving DecidableEq, Repr

/-- Model of Go `path.Join(a, b)` for the uses in this program: a
non-empty, already-clean base directory joined with a non-empty, slash-free
file name, where it equals plain concatenation with a separator. -/
def pathJoin (a b : String) : String := a ++ "/" ++ b

/-- Go struct `videoToTranscode`: one upload through its lifecycle. -/
structure Job where
  dlPath : Path
  srcPath : Path
  dstPath : Path
  servePath : Path
  url : String
  thumbDstPath : Path
  thumbServePath : Path
  thumbUrl : String
  deleteUrl : String
  owner : String
  rotation : Int
deriving DecidableEq, Repr

/-- Go `createVideoToTranscode(token, serveVideoPath, serveThumbPath,
user)`.  The `rotation` field is not assigned in the Go composite literal,
so it starts at the Go zero value 0. -/
def createVideoToTranscode (cfg : Config) (token serveVideoPath serveThumbPath user : String) : Job :=
  { dlPath := pathJoin cfg.tempBase (token ++ ".dl.mp4")
    srcPath := pathJoin cfg.tempBase (token ++ ".src.mp4")
    dstPath := pathJoin cfg.tempBase (token ++ ".dst.mp4")
    servePath := serveVideoPath
    url := cfg.storageUri ++ "/" ++ token ++ ".mp4"
    thumbDstPath := pathJoin cfg.tempBase (token ++ ".jpg")
    thumbServePath := serveThumbPath
    thumbUrl := cfg.storageUri ++ "/" ++ token ++ ".jpg"
    deleteUrl := cfg.apiUri ++ "/uploads/" ++ token
    owner := user
    rotation := 0 }

namespace transcode

/-- Go `transcode.Quality`. -/
inductive Quality where
  | QualityLow
  | QualityHigh
deriving DecidableEq, Repr

/-- Go `transcode.Options` (field `Quality` renamed `quality`; the unused
`ExtraArgs` field is omitted). -/
structure Options where
  CompensateRotation : Int
  quality : Quality
deriving DecidableEq, Repr

end transcode

/-- Outcomes of the external tool invocations during one job's fast stage.
Each field is the result the corresponding black-box call returns in this
run: the tool either fails with an error or succeeds, writing opaque
output bytes to the destination path it was given. -/
structure ToolEnv where
  rotationResult : Except GoErr Int
  durationResult : Except GoErr Rat
  thumbGenErr : Option GoErr
  thumbContent : String
  transcodeErr : transcode.Quality → Option GoErr
  transcodeContent : transcode.Quality → String

/-- Black-box `transcode.ExtractRotation`. -/
def transcode.ExtractRotation (tenv : ToolEnv) (_videoPath : Path) :
    Except GoErr Int :=
  tenv.rotationResult

/-- Black-box `transcode.ExtractDuration`. -/
def transcode.ExtractDuration (tenv : ToolEnv) (_videoPath : Path) :
    Except GoErr Rat :=
  tenv.durationResult

/-- Black-box `transcode.GenerateThumbnail`: on success writes the
thumbnail bytes at `thumbPath`. -/
def transcode.GenerateThumbnail (tenv : ToolEnv) (fs : FS)
    (_videoPath thumbPath : Path) (_time : Rat) (_options : transcode.Options) :
    Option GoErr × FS :=
  match tenv.thumbGenErr with
  | some e => (some e, fs)
  | none => (none, fsSet fs thumbPath tenv.thumbContent)

/-- Black-box `transcode.TranscodeMP4`: on success writes the transcoded
bytes at `dstPath`. -/
def transcode.TranscodeMP4 (tenv : ToolEnv) (fs : FS)
    (_srcPath dstPath : Path) (options : transcode.Options) :
    Option GoErr × FS :=
  match tenv.transcodeErr options.quality with
  | some e => (some e, fs)
  | none => (none, fsSet fs dstPath (tenv.transcodeContent options.quality))

/-- Go `main.generateThumbnail(video, relativeTime)`: extract the duration,
generate the thumbnail at 30% of it, publish it with an ownership-checked
`Move`, removing the local thumbnail if the publish fails. -/
def generateThumbnail (tenv : ToolEnv) (env : OsEnv) (fs : FS) (video : Job)
    (relativeTime : Rat) : Option GoErr × FS :=
  match transcode.ExtractDuration tenv video.srcPath with
  | .error e => (some e, fs)
  | .ok duration =>
    let time := duration * relativeTime
    let options : transcode.Options := ⟨video.rotation, .QualityHigh⟩
    match transcode.GenerateThumbnail tenv fs video.srcPath video.thumbDstPath time options with
    | (some e, fs1) => (some e, fs1)
    | (none, fs1) =>
      match ownedfile.Collection.Move env fs1 video.thumbDstPath video.thumbServePath video.owner with
      | (some e, fs2) => (some e, (osRemove env fs2 video.thumbDstPath).2)
      | (none, fs2) => (none, fs2)

/-- Go `main.transcodeVideo(video, quality)`: transcode into the temporary
destination, publish it with an ownership-checked `Move`, removing the
local output if the publish fails. -/
def transcodeVideo (tenv : ToolEnv) (env : OsEnv) (fs : FS) (video : Job)
    (quality : transcode.Quality) : Option GoErr × FS :=
  let options : transcode.Options := ⟨video.rotation, quality⟩
  match transcode.TranscodeMP4 tenv fs video.srcPath video.dstPath options with
  | (some e, fs1) => (some e, fs1)
  | (none, fs1) =>
    match ownedfile.Collection.Move env fs1 video.dstPath video.servePath video.owner with
    | (some e, fs2) => (some e, (osRemove env fs2 video.dstPath).2)
    | (none, fs2) => (none, fs2)

/-- One `logError(err, video.srcPath, action)` record: the action name and
the error it reported (`none` = "succeeded"). -/
abbrev LogEntry := String × Option GoErr

/-- Go `main.processVideoFast(video)`: extract rotation (keeping the
existing rotation on failure), generate and publish the thumbnail,
transcode and publish the low-quality rendition — logging each step's
outcome and always continuing — then hand the job to the slow pool with
the blocking submit.  Returns the filesystem, the (possibly
rotation-updated) job, the slow queue and the three log records in
program order. -/
def processVideoFast (tenv : ToolEnv) (env : OsEnv) (fs : FS) (video : Job)
    (slowQ : workqueue.WorkQueue Job) :
    FS × Job × workqueue.WorkQueue Job × List LogEntry :=
  let (rotErr, video1) :=
    match transcode.ExtractRotation tenv video.srcPath with
    | .ok rotation => ((none : Option GoErr), { video with rotation := rotation })
    | .error e => (some e, video)
  let (thumbErr, fs1) := generateThumbnail tenv env fs video1 ((3 : Rat)/10)
  let (lowErr, fs2) := transcodeVideo tenv env fs1 video1 .QualityLow
  let slowQ1 := slowQ.AddBlocking video1
  (fs2, video1, slowQ1,
    [("Extract rotation", rotErr), ("Generate thumbnail", thumbErr),
     ("Transcode low-quality", lowErr)])

/-- Go `uploadHandler`, the admission decision after the source rename
(the `didAdd := fastProcessQueue.AddIfSpace(...)` block): on success the
handler proceeds to its 200/redirect responses (modelled as status 200, no
error); when the queue is full it removes the temporary source file,
deletes both ownership records and fails the request with 503
"Process queue full". -/
def uploadHandlerAdmit (env : OsEnv) (fs : FS) (q : workqueue.WorkQueue Job)
    (video : Job) (user : String) :
    FS × workqueue.WorkQueue Job × Nat × Option GoErr :=
  match q.AddIfSpace video with
  | (q1, true) => (fs, q1, 200, none)
  | (q1, false) =>
    let fs1 := (osRemove env fs video.srcPath).2
    let fs2 := (ownedfile.Collection.Delete env fs1 video.servePath user).2
    let fs3 := (ownedfile.Collection.Delete env fs2 video.thumbServePath user).2
    (fs3, q1, 503, some (.goError "Process queue full"))

/-- One entry of `ioutil.ReadDir(tempBase)`: its base name and whether it
is a directory. -/
structure DirEntry where
  name : String
  isDir : Bool
deriving DecidableEq, Repr

/-- What the recovery scan did with one directory entry. -/
inductive ScanOutcome where
  | notConsidered
  | tokenFail
  | noVideoOwner
  | noThumbOwner
  | ownerMismatch
  | queueFull
  | submitted (video : Job)
deriving DecidableEq, Repr

/-- The scanner's token derivation for one directory-entry name:
`strings.TrimSuffix(parts[len(parts)-1], ".src.mp4")` after
`parts := strings.Split(p, "/")` (for the non-empty `parts` the split
always produces). -/
def scanTokenOf (name : String) : String :=
  goTrimSuffix ((goSplitSlash name).getLastD "") ".src.mp4"

/-- `path.Join(serveBase, token+".mp4")`, as computed by both the upload
handler and the recovery scan. -/
def scanServeVideoPath (cfg : Config) (token : String) : Path :=
  pathJoin cfg.serveBase (token ++ ".mp4")

/-- `path.Join(serveBase, token+".jpg")`, as computed by both the upload
handler and the recovery scan. -/
def scanServeThumbPath (cfg : Config) (token : String) : Path :=
  pathJoin cfg.serveBase (token ++ ".jpg")

/-- The loop body of Go `queuePendingVideosToTranscode` on one directory
entry: skip directories and names without the `.src.mp4` suffix, derive
the token, read both serve-path owners, and submit the reconstructed job
with `AddIfSpace` when everything matches. -/
def scanEntry (cfg : Config) (env : OsEnv) (fs : FS)
    (q : workqueue.WorkQueue Job) (e : DirEntry) :
    workqueue.WorkQueue Job × ScanOutcome :=
  if e.isDir then (q, .notConsidered)
  else if ¬ goHasSuffix e.name ".src.mp4" then (q, .notConsidered)
  else
    let parts := goSplitSlash e.name
    if parts.length = 0 then (q, .tokenFail)
    else
      let token := scanTokenOf e.name
      let serveVideoPath := scanServeVideoPath cfg token
      let serveThumbPath := scanServeThumbPath cfg token
      match ownedfile.Collection.ReadOwner env fs serveVideoPath with
      | .error _ => (q, .noVideoOwner)
      | .ok videoOwner =>
        match ownedfile.Collection.ReadOwner env fs serveThumbPath with
        | .error _ => (q, .noThumbOwner)
        | .ok thumbOwner =>
          if videoOwner ≠ thumbOwner then (q, .ownerMismatch)
          else
            let video := createVideoToTranscode cfg token serveVideoPath serveThumbPath videoOwner
            match q.AddIfSpace video with
            | (q1, true) => (q1, .submitted video)
            | (q1, false) => (q1, .queueFull)

/-- Go `queuePendingVideosToTranscode`: the scan over the listing of the
temporary directory, also recording what happened to each entry. -/
def queuePendingVideosToTranscode (cfg : Config) (env : OsEnv) (fs : FS) :
    List DirEntry → workqueue.WorkQueue Job →
    workqueue.WorkQueue Job × List ScanOutcome
  | [], q => (q, [])
  | e :: es, q =>
    let (q1, out) := scanEntry cfg env fs q e
    let (q2, outs) := queuePendingVideosToTranscode cfg env fs es q1
    (q2, out :: outs)

/-! ## Derived notions and helper lemmas -/

/-- Whether a path is itself shaped like a sidecar marker path. -/
def endsOwner (p : Path) : Bool := goHasSuffix p ".owner"

/-- The owner recorded for `p`: the contents of its sidecar marker file. -/
def markerAt (fs : FS) (p : Path) : Option String :=
  fsGet fs (ownedfile.getOwnerPath p)

theorem endsOwner_ownerPath (p : Path) :
    endsOwner (ownedfile.getOwnerPath p) = true :=
  goHasSuffix_append p ".owner"

theorem ne_ownerPath_of_endsOwner_false {q : Path} (p : Path)
    (h : endsOwner q = false) : q ≠ ownedfile.getOwnerPath p := by
  intro he
  rw [he, endsOwner_ownerPath] at h
  exact absurd h (by simp)

theorem ownerPath_inj {p q : Path}
    (h : ownedfile.getOwnerPath p = ownedfile.getOwnerPath q) : p = q := by
  apply String.ext
  have hd : p.data ++ ".owner".data = q.data ++ ".owner".data := by
    have h1 := congrArg String.data h
    simpa [ownedfile.getOwnerPath, String.data_append] using h1
  exact List.append_cancel_right hd

theorem ownerPath_ne_self (p : Path) : ownedfile.getOwnerPath p ≠ p := by
  intro h
  have h1 := congrArg (fun s => s.data.length) h
  simp [ownedfile.getOwnerPath, String.data_append] at h1

theorem osRemove_clean_snd (fs : FS) (p : Path) :
    (osRemove OsEnv.clean fs p).2 = fsErase fs p := by
  unfold osRemove OsEnv.clean
  cases hx : fsGet fs p with
  | some v => simp
  | none => simp [fsErase_of_not_present fs p hx]

theorem osRemove_frame (env : OsEnv) (fs : FS) (p r : Path) (h : r ≠ p) :
    fsGet (osRemove env fs p).2 r = fsGet fs r := by
  unfold osRemove
  cases env.removeErr p with
  | some e => simp
  | none =>
    cases fsGet fs p with
    | some v => simp [fsGet_fsErase, if_neg h]
    | none => simp

theorem osRename_frame (env : OsEnv) (fs : FS) (src dst r : Path)
    (h1 : r ≠ src) (h2 : r ≠ dst) :
    fsGet (osRename env fs src dst).2 r = fsGet fs r := by
  unfold osRename
  cases env.renameErr src dst with
  | some e => simp
  | none =>
    cases fsGet fs src with
    | some v => simp [fsGet_fsSet, fsGet_fsErase, if_neg h1, if_neg h2]
    | none => simp

theorem readOwner_clean (fs : FS) (p : Path) :
    ownedfile.Collection.ReadOwner OsEnv.clean fs p =
      (match markerAt fs p with
       | some s => .ok s
       | none => .error .notExist) := by
  unfold ownedfile.Collection.ReadOwner ownedfile.rawReadOwner ioReadFile
    OsEnv.clean markerAt
  cases fsGet fs (ownedfile.getOwnerPath p) <;> simp

theorem create_fail_marker_exists (env : OsEnv) (fs : FS) (p : Path)
    {A : String} (h : markerAt fs p = some A) (B : String) :
    ownedfile.Collection.Create env fs p B = (some (.permissionDenied p), fs) := by
  simp only [markerAt] at h
  simp [ownedfile.Collection.Create, ownedfile.rawCreateOwner, osStatOk, h]

theorem create_ok_marker (env : OsEnv) (fs : FS) (p o : Path)
    (h : (ownedfile.Collection.Create env fs p o).1 = none) :
    fsGet (ownedfile.Collection.Create env fs p o).2 (ownedfile.getOwnerPath p)
      = some o := by
  simp only [ownedfile.Collection.Create, ownedfile.rawCreateOwner] at h ⊢
  by_cases hs : osStatOk fs (ownedfile.getOwnerPath p) = true
  · rw [if_pos hs] at h
    exact absurd h (by simp)
  · rw [if_neg hs] at h ⊢
    cases hc : osCreate env fs (ownedfile.getOwnerPath p) with
    | error e =>
      rw [hc] at h
      exact absurd h (by simp)
    | ok fs1 =>
      rw [hc] at h
      dsimp only at h ⊢
      cases hw : fileWriteString env fs1 (ownedfile.getOwnerPath p) o with
      | mk werr fs2 =>
        rw [hw] at h
        cases werr with
        | some e => exact absurd h (by simp)
        | none =>
          dsimp only at h ⊢
          cases hcl : fileClose env (ownedfile.getOwnerPath p) with
          | some e =>
            rw [hcl] at h
            exact absurd h (by simp)
          | none =>
            dsimp only
            simp only [fileWriteString] at hw
            cases hwe : env.writeErr (ownedfile.getOwnerPath p) with
            | some pr =>
              rw [hwe] at hw
              cases hw
            | none =>
              rw [hwe] at hw
              injection hw with h1 h2
              rw [← h2, fsGet_fsSet]
              simp

theorem create_frame (env : OsEnv) (fs : FS) (q B r : Path)
    (h : r ≠ ownedfile.getOwnerPath q) :
    fsGet (ownedfile.Collection.Create env fs q B).2 r = fsGet fs r := by
  simp only [ownedfile.Collection.Create, ownedfile.rawCreateOwner]
  by_cases hs : osStatOk fs (ownedfile.getOwnerPath q) = true
  · rw [if_pos hs]
  · rw [if_neg hs]
    cases hc : osCreate env fs (ownedfile.getOwnerPath q) with
    | error e => rfl
    | ok fs1 =>
      dsimp only
      have hfs1 : fsGet fs1 r = fsGet fs r := by
        simp only [osCreate] at hc
        cases hce : env.createErr (ownedfile.getOwnerPath q) with
        | some e => rw [hce] at hc; cases hc
        | none =>
          rw [hce] at hc
          injection hc with h1
          rw [← h1, fsGet_fsSet, if_neg h]
      cases hw : fileWriteString env fs1 (ownedfile.getOwnerPath q) B with
      | mk werr fs2 =>
        have hfs2 : fsGet fs2 r = fsGet fs r := by
          simp only [fileWriteString] at hw
          cases hwe : env.writeErr (ownedfile.getOwnerPath q) with
          | some pr =>
            rw [hwe] at hw
            injection hw with h1 h2
            rw [← h2, fsGet_fsSet, if_neg h, hfs1]
          | none =>
            rw [hwe] at hw
            injection hw with h1 h2
            rw [← h2, fsGet_fsSet, if_neg h, hfs1]
        cases werr with
        | some e =>
          dsimp only
          rw [osRemove_frame env fs2 _ r h, hfs2]
        | none =>
          dsimp only
          cases hcl : fileClose env (ownedfile.getOwnerPath q) with
          | some e =>
            dsimp only
            rw [osRemove_frame env fs2 _ r h, hfs2]
          | none =>
            exact hfs2

theorem move_frame (env : OsEnv) (fs : FS) (src dst o r : Path)
    (h1 : r ≠ src) (h2 : r ≠ dst) :
    fsGet (ownedfile.Collection.Move env fs src dst o).2 r = fsGet fs r := by
  unfold ownedfile.Collection.Move
  cases ownedfile.rawCheckOwner env fs dst o with
  | some e => simp
  | none => simp only; exact osRename_frame env fs src dst r h1 h2

theorem delete_frame (env : OsEnv) (fs : FS) (q o r : Path)
    (h1 : r ≠ q) (h2 : r ≠ ownedfile.getOwnerPath q) :
    fsGet (ownedfile.Collection.Delete env fs q o).2 r = fsGet fs r := by
  unfold ownedfile.Collection.Delete
  cases ownedfile.rawCheckOwner env fs q o with
  | some e => simp
  | none =>
    simp only
    cases hrm : osRemove env fs q with
    | mk err fs1 =>
      have hfs1 : fsGet fs1 r = fsGet fs r := by
        have := osRemove_frame env fs q r h1
        rw [hrm] at this
        exact this
      cases err with
      | some e =>
        by_cases hn : osIsNotExist e = true
        · simp only [hn, if_true]
          rw [osRemove_frame env fs1 _ r h2, hfs1]
        · simp only [hn]
          simp [hfs1]
      | none =>
        simp only
        rw [osRemove_frame env fs1 _ r h2, hfs1]

theorem delete_noop_of_wrong_owner (env : OsEnv) (fs : FS) (p o' A : Path)
    (hA : markerAt fs p = some A) (hne : o' ≠ A) :
    (ownedfile.Collection.Delete env fs p o').2 = fs := by
  unfold ownedfile.Collection.Delete
  have hck : ∃ e, ownedfile.rawCheckOwner env fs p o' = some e := by
    unfold ownedfile.rawCheckOwner ownedfile.rawReadOwner ioReadFile
    cases hre : env.readErr (ownedfile.getOwnerPath p) with
    | some e => exact ⟨e, rfl⟩
    | none =>
      rw [show fsGet fs (ownedfile.getOwnerPath p) = some A from hA]
      dsimp only
      rw [if_neg (fun hh => hne hh.symm)]
      exact ⟨_, rfl⟩
  obtain ⟨e, he⟩ := hck
  rw [he]

theorem create_clean_ok_of_no_marker (fs : FS) (p o : Path)
    (h : markerAt fs p = none) :
    (ownedfile.Collection.Create OsEnv.clean fs p o).1 = none := by
  simp only [markerAt] at h
  simp [ownedfile.Collection.Create, ownedfile.rawCreateOwner, osStatOk, h,
    osCreate, fileWriteString, fileClose, OsEnv.clean]

theorem delete_clean_ok (fs : FS) (p o : Path) (h : markerAt fs p = some o) :
    ownedfile.Collection.Delete OsEnv.clean fs p o =
      (none, fsErase (fsErase fs p) (ownedfile.getOwnerPath p)) := by
  have hck : ownedfile.rawCheckOwner OsEnv.clean fs p o = none := by
    unfold ownedfile.rawCheckOwner ownedfile.rawReadOwner ioReadFile OsEnv.clean
    rw [show fsGet fs (ownedfile.getOwnerPath p) = some o from h]
    simp
  unfold ownedfile.Collection.Delete
  rw [hck]
  simp only
  cases hx : fsGet fs p with
  | some v =>
    have h1 : osRemove OsEnv.clean fs p = (none, fsErase fs p) := by
      unfold osRemove OsEnv.clean
      rw [hx]
    rw [h1]
    simp only
    have hm1 : fsGet (fsErase fs p) (ownedfile.getOwnerPath p) = some o := by
      rw [fsGet_fsErase, if_neg (ownerPath_ne_self p)]
      exact h
    unfold osRemove OsEnv.clean
    rw [hm1]
  | none =>
    have h1 : osRemove OsEnv.clean fs p = (some .notExist, fs) := by
      unfold osRemove OsEnv.clean
      rw [hx]
    rw [h1]
    simp only [osIsNotExist, if_true]
    have hfse : fsErase fs p = fs := fsErase_of_not_present fs p hx
    unfold osRemove OsEnv.clean
    rw [show fsGet fs (ownedfile.getOwnerPath p) = some o from h, hfse]

/-! ## Histories of ownership-store calls

For the claims about what holds "until `Delete` succeeds", arbitrary
sequences of `Collection` calls are modelled as a list of operations, each
run under its own OS environment. -/

/-- One `Collection` call in a history. -/
inductive Op where
  | create (path owner : String)
  | move (src path owner : String)
  | delete (path owner : String)
  | readOwner (path : String)
deriving DecidableEq, Repr

/-- The state effect of one call. -/
def applyOp (fs : FS) : OsEnv × Op → FS
  | (env, .create p o) => (ownedfile.Collection.Create env fs p o).2
  | (env, .move s p o) => (ownedfile.Collection.Move env fs s p o).2
  | (env, .delete p o) => (ownedfile.Collection.Delete env fs p o).2
  | (_, .readOwner _) => fs

/-- The state effect of a history of calls, run left to right. -/
def runOps (fs : FS) : List (OsEnv × Op) → FS
  | [] => fs
  | eo :: ops => runOps (applyOp fs eo) ops

/-- The call passes only data paths to the store, none shaped like a
`.owner` sidecar name — true of every call this program makes, whose path
arguments are `<token>.mp4` / `<token>.jpg` serve paths and temp-file
paths. -/
def Op.pathsOk : Op → Bool
  | .create p _ => !endsOwner p
  | .move s p _ => !endsOwner s && !endsOwner p
  | .delete p _ => !endsOwner p
  | .readOwner _ => true

theorem marker_preserved_op (fs : FS) (p A : Path) (eo : OsEnv × Op)
    (hp : endsOwner p = false)
    (hok : eo.2.pathsOk = true)
    (hnd : eo.2 ≠ Op.delete p A)
    (hA : markerAt fs p = some A) :
    markerAt (applyOp fs eo) p = some A := by
  obtain ⟨env, op⟩ := eo
  cases op with
  | create q B =>
    by_cases hq : q = p
    · subst hq
      show markerAt (ownedfile.Collection.Create env fs q B).2 q = some A
      rw [create_fail_marker_exists env fs q hA B]
      exact hA
    · show markerAt (ownedfile.Collection.Create env fs q B).2 p = some A
      unfold markerAt
      rw [create_frame env fs q B _ (fun he => hq (ownerPath_inj he).symm)]
      exact hA
  | move s q o =>
    simp only [Op.pathsOk, Bool.and_eq_true, Bool.not_eq_true'] at hok
    show markerAt (ownedfile.Collection.Move env fs s q o).2 p = some A
    unfold markerAt
    rw [move_frame env fs s q o _
      (fun he => absurd he.symm (ne_ownerPath_of_endsOwner_false p hok.1))
      (fun he => absurd he.symm (ne_ownerPath_of_endsOwner_false p hok.2))]
    exact hA
  | delete q o' =>
    simp only [Op.pathsOk, Bool.not_eq_true'] at hok
    by_cases hq : q = p
    · subst hq
      have hne : o' ≠ A := by
        intro he
        exact hnd (by rw [he])
      show markerAt (ownedfile.Collection.Delete env fs q o').2 q = some A
      unfold markerAt
      rw [delete_noop_of_wrong_owner env fs q o' A hA hne]
      exact hA
    · show markerAt (ownedfile.Collection.Delete env fs q o').2 p = some A
      unfold markerAt
      rw [delete_frame env fs q o' _
        (fun he => absurd he.symm (ne_ownerPath_of_endsOwner_false p hok))
        (fun he => hq (ownerPath_inj he).symm)]
      exact hA
  | readOwner q => exact hA

theorem marker_preserved (fs : FS) (p A : Path) (ops : List (OsEnv × Op))
    (hp : endsOwner p = false)
    (hops : ∀ eo ∈ ops, eo.2.pathsOk = true ∧ eo.2 ≠ Op.delete p A)
    (hA : markerAt fs p = some A) :
    markerAt (runOps fs ops) p = some A := by
  induction ops generalizing fs with
  | nil => exact hA
  | cons eo ops ih =>
    have h1 := hops eo (List.mem_cons_self _ _)
    exact ih (applyOp fs eo) (fun x hx => hops x (List.mem_cons_of_mem _ hx))
      (marker_preserved_op fs p A eo hp h1.1 h1.2 hA)

theorem readOwner_ok_marker (env : OsEnv) (fs : FS) (p : Path) {s : String}
    (h : ownedfile.Collection.ReadOwner env fs p = .ok s) :
    markerAt fs p = some s := by
  unfold ownedfile.Collection.ReadOwner ownedfile.rawReadOwner ioReadFile at h
  cases hre : env.readErr (ownedfile.getOwnerPath p) with
  | some e => rw [hre] at h; cases h
  | none =>
    rw [hre] at h
    unfold markerAt
    cases hx : fsGet fs (ownedfile.getOwnerPath p) with
    | some v => rw [hx] at h; injection h with h1; rw [h1]
    | none => rw [hx] at h; cases h

theorem checkOwner_of_readOwner_ok (env : OsEnv) (fs : FS) (p o : Path)
    (h : ownedfile.Collection.ReadOwner env fs p = .ok o) :
    ownedfile.rawCheckOwner env fs p o = none := by
  unfold ownedfile.rawCheckOwner
  rw [show ownedfile.rawReadOwner env fs p = .ok o from h]
  simp

/-! ## The claims -/

/-- C1, counterexample to the claim as stated.  First half: on a filesystem
with no marker at the destination, `Move` fails — but with the marker-read
`notExist` error, not with `PermissionDenied` as the claim requires for
every state where `ReadOwner(p)` does not return `o`.  Second half: on a
filesystem where the marker at the destination does name the owner but the
source file is missing, `ReadOwner(p)` returns exactly `o` and yet `Move`
fails (the rename has nothing to rename), against the claim's "succeeds
... iff". -/
theorem C1_counterexample :
    ((ownedfile.Collection.Move OsEnv.clean [] "s" "a" "alice").1
        = some GoErr.notExist
      ∧ IsPermissionDenied
          (ownedfile.Collection.Move OsEnv.clean [] "s" "a" "alice").1 = false)
    ∧ (ownedfile.Collection.ReadOwner OsEnv.clean [("a.owner", "alice")] "a"
        = .ok "alice"
      ∧ (ownedfile.Collection.Move OsEnv.clean [("a.owner", "alice")] "s" "a"
          "alice").1 ≠ none) := by
  refine ⟨⟨by decide, by decide⟩, ⟨rfl, by decide⟩⟩

/-- C1, amended: `Move(src, p, o)` first checks the marker at `p`.  If
reading the marker fails, `Move` fails with that read error; if the marker
names an owner other than `o`, it fails with `PermissionDenied`; in both
cases the filesystem (in particular `src`) is untouched and no rename is
attempted.  When the marker names exactly `o`, `Move` performs the rename
and returns its outcome: with no injected rename failure it fails with
`notExist` (filesystem untouched) when `src` is missing, and otherwise
succeeds, moving the contents of `src` to `p`. -/
theorem C1_move_characterization (env : OsEnv) (fs : FS) (src p o : Path) :
    (∀ e, ownedfile.Collection.ReadOwner env fs p = .error e →
        ownedfile.Collection.Move env fs src p o = (some e, fs))
    ∧ (∀ o', ownedfile.Collection.ReadOwner env fs p = .ok o' → o' ≠ o →
        ownedfile.Collection.Move env fs src p o
          = (some (.permissionDenied p), fs))
    ∧ (ownedfile.Collection.ReadOwner env fs p = .ok o →
        ownedfile.Collection.Move env fs src p o = osRename env fs src p)
    ∧ (ownedfile.Collection.ReadOwner env fs p = .ok o →
        env.renameErr src p = none → fsGet fs src = none →
        ownedfile.Collection.Move env fs src p o = (some .notExist, fs))
    ∧ (∀ v, ownedfile.Collection.ReadOwner env fs p = .ok o →
        env.renameErr src p = none → fsGet fs src = some v →
        ownedfile.Collection.Move env fs src p o
          = (none, fsSet (fsErase fs src) p v)) := by
  have hrename : ∀ h : ownedfile.Collection.ReadOwner env fs p = .ok o,
      ownedfile.Collection.Move env fs src p o = osRename env fs src p := by
    intro h
    unfold ownedfile.Collection.Move
    rw [checkOwner_of_readOwner_ok env fs p o h]
  refine ⟨?_, ?_, hrename, ?_, ?_⟩
  · intro e he
    unfold ownedfile.Collection.Move ownedfile.rawCheckOwner
    rw [show ownedfile.rawReadOwner env fs p = .error e from he]
  · intro o' ho' hne
    unfold ownedfile.Collection.Move ownedfile.rawCheckOwner
    rw [show ownedfile.rawReadOwner env fs p = .ok o' from ho']
    dsimp only
    rw [if_neg hne]
  · intro h hre hsrc
    rw [hrename h]
    unfold osRename
    rw [hre, hsrc]
  · intro v h hre hsrc
    rw [hrename h]
    unfold osRename
    rw [hre, hsrc]

/-- C1, witness for the amended characterization: a successful,
owner-authorized move of a present source file, computed concretely. -/
theorem C1_move_characterization_witness :
    ownedfile.Collection.Move OsEnv.clean [("b.owner", "alice"), ("s", "raw")]
        "s" "b" "alice"
      = (none, fsSet (fsErase [("b.owner", "alice"), ("s", "raw")] "s") "b" "raw") :=
  (C1_move_characterization OsEnv.clean [("b.owner", "alice"), ("s", "raw")]
    "s" "b" "alice").2.2.2.2 "raw" rfl rfl (by decide)

/-- C7, counterexample to the claim as stated: on a filesystem with no
marker at `p`, `Delete(p, o)` does fail, but with the marker-read
`notExist` error rather than with `PermissionDenied` as the claim requires
whenever the marker does not name `o`. -/
theorem C7_counterexample :
    (ownedfile.Collection.Delete OsEnv.clean [] "a" "alice").1
      = some GoErr.notExist
    ∧ IsPermissionDenied
        (ownedfile.Collection.Delete OsEnv.clean [] "a" "alice").1 = false := by
  refine ⟨by decide, by decide⟩

/-- C7, amended: `Delete(p, o)` fails with the marker-read error when the
marker at `p` cannot be read (commonly `notExist`), and with
`PermissionDenied` when it names a different owner — in both cases with no
filesystem change.  When the marker names `o`: a hard (non-`notExist`)
data-file removal error aborts `Delete` with that error before the marker
is touched; otherwise (data file removed, or absent and tolerated) the
marker file is then removed, so that in a clean run `Delete` fully
succeeds even when the data file was already absent, while a
marker-removal failure is surfaced to the caller with the marker still in
place and the path left owned but dataless. -/
theorem C7_delete_characterization (env : OsEnv) (fs : FS) (p o : Path) :
    (∀ e, ownedfile.Collection.ReadOwner env fs p = .error e →
        ownedfile.Collection.Delete env fs p o = (some e, fs))
    ∧ (∀ o', ownedfile.Collection.ReadOwner env fs p = .ok o' → o' ≠ o →
        ownedfile.Collection.Delete env fs p o
          = (some (.permissionDenied p), fs))
    ∧ (∀ e, ownedfile.Collection.ReadOwner env fs p = .ok o →
        env.removeErr p = some e → osIsNotExist e = false →
        ownedfile.Collection.Delete env fs p o = (some e, fs))
    ∧ (ownedfile.Collection.ReadOwner env fs p = .ok o →
        env.removeErr p = none →
        ownedfile.Collection.Delete env fs p o
          = osRemove env (fsErase fs p) (ownedfile.getOwnerPath p))
    ∧ (ownedfile.Collection.ReadOwner OsEnv.clean fs p = .ok o →
        (ownedfile.Collection.Delete OsEnv.clean fs p o).1 = none
        ∧ markerAt (ownedfile.Collection.Delete OsEnv.clean fs p o).2 p = none
        ∧ fsGet (ownedfile.Collection.Delete OsEnv.clean fs p o).2 p = none)
    ∧ (∀ e, ownedfile.Collection.ReadOwner env fs p = .ok o →
        env.removeErr p = none →
        env.removeErr (ownedfile.getOwnerPath p) = some e →
        (ownedfile.Collection.Delete env fs p o).1 = some e
        ∧ markerAt (ownedfile.Collection.Delete env fs p o).2 p
            = markerAt fs p
        ∧ fsGet (ownedfile.Collection.Delete env fs p o).2 p = none) := by
  have hstep : ∀ (h : ownedfile.Collection.ReadOwner env fs p = .ok o),
      env.removeErr p = none →
      ownedfile.Collection.Delete env fs p o
        = osRemove env (fsErase fs p) (ownedfile.getOwnerPath p) := by
    intro h hre
    unfold ownedfile.Collection.Delete
    rw [checkOwner_of_readOwner_ok env fs p o h]
    dsimp only
    unfold osRemove
    rw [hre]
    cases hx : fsGet fs p with
    | some v => rfl
    | none =>
      dsimp only [osIsNotExist]
      rw [fsErase_of_not_present fs p hx, if_pos rfl]
  refine ⟨?_, ?_, ?_, hstep, ?_, ?_⟩
  · intro e he
    unfold ownedfile.Collection.Delete ownedfile.rawCheckOwner
    rw [show ownedfile.rawReadOwner env fs p = .error e from he]
  · intro o' ho' hne
    unfold ownedfile.Collection.Delete ownedfile.rawCheckOwner
    rw [show ownedfile.rawReadOwner env fs p = .ok o' from ho']
    dsimp only
    rw [if_neg hne]
  · intro e h hre hnn
    unfold ownedfile.Collection.Delete
    rw [checkOwner_of_readOwner_ok env fs p o h]
    dsimp only
    unfold osRemove
    rw [hre]
    dsimp only
    rw [hnn]
    simp
  · intro h
    have hm := readOwner_ok_marker OsEnv.clean fs p h
    rw [delete_clean_ok fs p o hm]
    refine ⟨rfl, ?_, ?_⟩
    · unfold markerAt
      rw [fsGet_fsErase]
      simp
    · rw [fsGet_fsErase, if_neg (fun he => ownerPath_ne_self p he.symm),
        fsGet_fsErase]
      simp
  · intro e h hre hroe
    rw [hstep h hre]
    unfold osRemove
    rw [hroe]
    refine ⟨rfl, ?_, ?_⟩
    · unfold markerAt
      rw [fsGet_fsErase, if_neg (ownerPath_ne_self p)]
    · rw [fsGet_fsErase]
      simp

/-- C7, witness for the amended characterization: owner-authorized delete
of a reservation whose data file was never published — the missing data
file is tolerated and both the marker and (absent) data file end up
gone. -/
theorem C7_delete_characterization_witness :
    (ownedfile.Collection.Delete OsEnv.clean [("c.owner", "alice")] "c"
        "alice").1 = none
    ∧ markerAt (ownedfile.Collection.Delete OsEnv.clean [("c.owner", "alice")]
        "c" "alice").2 "c" = none
    ∧ fsGet (ownedfile.Collection.Delete OsEnv.clean [("c.owner", "alice")]
        "c" "alice").2 "c" = none :=
  (C7_delete_characterization OsEnv.clean [("c.owner", "alice")] "c"
    "alice").2.2.2.2.1 rfl

/-- C8: with no marker yet at `p` and with the cleanup removal of the
marker path not itself failing, `Create(p, o)` either succeeds, leaving
the marker with exactly the owner string, or fails returning the
underlying I/O error of the step that failed (creation, write or close),
with the partially created marker file removed — no execution leaves an
empty or partially written marker behind. -/
theorem C8_create_marker_cleanup (env : OsEnv) (fs : FS) (p o : Path)
    (hm : markerAt fs p = none)
    (hr : env.removeErr (ownedfile.getOwnerPath p) = none) :
    ((ownedfile.Collection.Create env fs p o).1 = none →
        markerAt (ownedfile.Collection.Create env fs p o).2 p = some o)
    ∧ (∀ e, (ownedfile.Collection.Create env fs p o).1 = some e →
        markerAt (ownedfile.Collection.Create env fs p o).2 p = none)
    ∧ (∀ e part, env.createErr (ownedfile.getOwnerPath p) = none →
        env.writeErr (ownedfile.getOwnerPath p) = some (e, part) →
        (ownedfile.Collection.Create env fs p o).1 = some e)
    ∧ (∀ e, env.createErr (ownedfile.getOwnerPath p) = none →
        env.writeErr (ownedfile.getOwnerPath p) = none →
        env.closeErr (ownedfile.getOwnerPath p) = some e →
        (ownedfile.Collection.Create env fs p o).1 = some e) := by
  simp only [markerAt] at hm
  have hs : osStatOk fs (ownedfile.getOwnerPath p) = false := by
    simp [osStatOk, hm]
  refine ⟨fun h => by unfold markerAt; exact create_ok_marker env fs p o h,
    ?_, ?_, ?_⟩
  · intro e he
    unfold markerAt
    simp only [ownedfile.Collection.Create, ownedfile.rawCreateOwner, hs,
      Bool.false_eq_true, if_false] at he ⊢
    cases hc : osCreate env fs (ownedfile.getOwnerPath p) with
    | error e1 => exact hm
    | ok fs1 =>
      rw [hc] at he
      dsimp only at he ⊢
      cases hw : fileWriteString env fs1 (ownedfile.getOwnerPath p) o with
      | mk werr fs2 =>
        rw [hw] at he
        have hmark2 : (fsGet fs2 (ownedfile.getOwnerPath p)).isSome = true := by
          simp only [fileWriteString] at hw
          cases hwe : env.writeErr (ownedfile.getOwnerPath p) with
          | some pr =>
            rw [hwe] at hw
            injection hw with h1 h2
            rw [← h2, fsGet_fsSet, if_pos rfl]
            rfl
          | none =>
            rw [hwe] at hw
            injection hw with h1 h2
            rw [← h2, fsGet_fsSet, if_pos rfl]
            rfl
        have hrm : fsGet (osRemove env fs2 (ownedfile.getOwnerPath p)).2
            (ownedfile.getOwnerPath p) = none := by
          unfold osRemove
          rw [hr]
          cases hg : fsGet fs2 (ownedfile.getOwnerPath p) with
          | some v =>
            dsimp only
            rw [fsGet_fsErase, if_pos rfl]
          | none => rw [hg] at hmark2; cases hmark2
        cases werr with
        | some e1 => exact hrm
        | none =>
          dsimp only at he ⊢
          cases hcl : fileClose env (ownedfile.getOwnerPath p) with
          | some e1 => exact hrm
          | none =>
            rw [hcl] at he
            exact absurd he (by simp)
  · intro e part hce hwe
    simp only [ownedfile.Collection.Create, ownedfile.rawCreateOwner, hs,
      Bool.false_eq_true, if_false, osCreate, hce, fileWriteString, hwe]
  · intro e hce hwe hcl
    simp only [ownedfile.Collection.Create, ownedfile.rawCreateOwner, hs,
      Bool.false_eq_true, if_false, osCreate, hce, fileWriteString, hwe,
      fileClose, hcl]

/-- An OS run in which the marker write at `w.owner` fails with a disk
error that leaves partial contents behind; every other OS call behaves
normally. -/
def envWriteFail : OsEnv :=
  { OsEnv.clean with
    writeErr := fun q =>
      if q = "w.owner" then some (.goError "disk full", "al") else none }

/-- C8, witness: at a concrete state, the failed write surfaces its disk
error and the partial marker (contents `"al"`) is removed. -/
theorem C8_create_marker_cleanup_witness :
    (ownedfile.Collection.Create envWriteFail [] "w" "alice").1
        = some (GoErr.goError "disk full")
    ∧ markerAt (ownedfile.Collection.Create envWriteFail [] "w" "alice").2 "w"
        = none :=
  ⟨(C8_create_marker_cleanup envWriteFail [] "w" "alice" rfl rfl).2.2.1
      (GoErr.goError "disk full") "al" rfl (by decide),
   (C8_create_marker_cleanup envWriteFail [] "w" "alice" rfl rfl).2.1
      (GoErr.goError "disk full")
      ((C8_create_marker_cleanup envWriteFail [] "w" "alice" rfl rfl).2.2.1
        (GoErr.goError "disk full") "al" rfl (by decide))⟩

/-- C2: once `Create(p, A)` has succeeded, every subsequent `Create(p, B)`
— whether `B` equals `A` or not — fails with the reservation-collision
error (the `permissionDeniedError` value whose taxonomy name in the spec
is `AlreadyOwned`), leaving the state unchanged, and this persists across
any history of store calls on data paths that contains no `Delete(p, A)`:
the marker keeps the single value `A`, so at most one owner record exists
for `p` at any time.  The exclusivity ends exactly as the claim says:
a clean `Delete(p, A)` succeeds, removes the marker, and then
`Create(p, B)` succeeds again. -/
theorem C2_ownership_exclusivity (env0 : OsEnv) (fs0 fs : FS) (p A B : String)
    (ops : List (OsEnv × Op))
    (hp : endsOwner p = false)
    (hops : ∀ eo ∈ ops, eo.2.pathsOk = true ∧ eo.2 ≠ Op.delete p A)
    (hcreate : ownedfile.Collection.Create env0 fs0 p A = (none, fs)) :
    markerAt (runOps fs ops) p = some A
    ∧ (∀ env1, ownedfile.Collection.Create env1 (runOps fs ops) p B
        = (some (GoErr.permissionDenied p), runOps fs ops))
    ∧ (ownedfile.Collection.Delete OsEnv.clean (runOps fs ops) p A).1 = none
    ∧ markerAt
        (ownedfile.Collection.Delete OsEnv.clean (runOps fs ops) p A).2 p
        = none
    ∧ (ownedfile.Collection.Create OsEnv.clean
        (ownedfile.Collection.Delete OsEnv.clean (runOps fs ops) p A).2
        p B).1 = none := by
  have hA : markerAt fs p = some A := by
    have h1 : (ownedfile.Collection.Create env0 fs0 p A).1 = none := by
      rw [hcreate]
    have h2 := create_ok_marker env0 fs0 p A h1
    rw [hcreate] at h2
    exact h2
  have hM := marker_preserved fs p A ops hp hops hA
  have hdel : ownedfile.Collection.Delete OsEnv.clean (runOps fs ops) p A
      = (none, fsErase (fsErase (runOps fs ops) p)
          (ownedfile.getOwnerPath p)) :=
    delete_clean_ok _ p A hM
  have hmark : markerAt
      (ownedfile.Collection.Delete OsEnv.clean (runOps fs ops) p A).2 p
      = none := by
    rw [hdel]
    unfold markerAt
    rw [fsGet_fsErase]
    simp
  exact ⟨hM, fun env1 => create_fail_marker_exists env1 _ p hM B,
    by rw [hdel], hmark, create_clean_ok_of_no_marker _ p B hmark⟩

/-- C2, witness: after `Create("v.mp4", "alice")` succeeds and a history
containing a colliding `Create("v.mp4", "bob")`, creating for `"bob"`
still fails with the collision error and changes nothing. -/
theorem C2_ownership_exclusivity_witness :
    ownedfile.Collection.Create OsEnv.clean
        (runOps [("v.mp4.owner", "alice")]
          [(OsEnv.clean, Op.create "v.mp4" "bob")]) "v.mp4" "bob"
      = (some (GoErr.permissionDenied "v.mp4"),
         runOps [("v.mp4.owner", "alice")]
           [(OsEnv.clean, Op.create "v.mp4" "bob")]) :=
  (C2_ownership_exclusivity OsEnv.clean [] [("v.mp4.owner", "alice")]
    "v.mp4" "alice" "bob" [(OsEnv.clean, Op.create "v.mp4" "bob")]
    (by decide)
    (by
      intro eo h
      rw [List.mem_singleton] at h
      subst h
      exact ⟨by decide, by decide⟩)
    (by decide)).2.1 OsEnv.clean

/-- C9: the Create/ReadOwner round-trip.  If `Create(p, o)` succeeds then
`ReadOwner(p)` (in a clean run) returns exactly the string `o` — the
marker's entire contents are the principal — and it keeps returning
exactly `o` across any further history of store calls on data paths that
contains no `Delete(p, ·)`. -/
theorem C9_create_readOwner_roundtrip (env0 : OsEnv) (fs0 fs : FS)
    (p o : String) (ops : List (OsEnv × Op))
    (hp : endsOwner p = false)
    (hops : ∀ eo ∈ ops, eo.2.pathsOk = true ∧ ∀ o', eo.2 ≠ Op.delete p o')
    (hcreate : ownedfile.Collection.Create env0 fs0 p o = (none, fs)) :
    ownedfile.Collection.ReadOwner OsEnv.clean fs p = .ok o
    ∧ ownedfile.Collection.ReadOwner OsEnv.clean (runOps fs ops) p
        = .ok o := by
  have hA : markerAt fs p = some o := by
    have h1 : (ownedfile.Collection.Create env0 fs0 p o).1 = none := by
      rw [hcreate]
    have h2 := create_ok_marker env0 fs0 p o h1
    rw [hcreate] at h2
    exact h2
  have hM := marker_preserved fs p o ops hp
    (fun eo h => ⟨(hops eo h).1, (hops eo h).2 o⟩) hA
  constructor
  · rw [readOwner_clean, hA]
  · rw [readOwner_clean, hM]

/-- C9, witness: the round-trip at a concrete state, across a history
containing an unrelated move. -/
theorem C9_create_readOwner_roundtrip_witness :
    ownedfile.Collection.ReadOwner OsEnv.clean
        (runOps [("v.mp4.owner", "alice")]
          [(OsEnv.clean, Op.move "t.dst.mp4" "v.mp4" "alice")]) "v.mp4"
      = .ok "alice" :=
  (C9_create_readOwner_roundtrip OsEnv.clean [] [("v.mp4.owner", "alice")]
    "v.mp4" "alice" [(OsEnv.clean, Op.move "t.dst.mp4" "v.mp4" "alice")]
    (by decide)
    (by
      intro eo h
      rw [List.mem_singleton] at h
      subst h
      exact ⟨by decide, fun o' h => Op.noConfusion h⟩)
    (by decide)).2

theorem fsGet_fsErase_none (fs : FS) (r s : Path) (h : fsGet fs s = none) :
    fsGet (fsErase fs r) s = none := by
  rw [fsGet_fsErase]
  by_cases hs : s = r
  · rw [if_pos hs]
  · rw [if_neg hs]
    exact h

/-- C3: in the upload handler, whenever the non-blocking fast-pool
submission reports no space, the compensating rollback runs in a clean OS
run: the temporary source file is removed, the serve-video and
serve-thumbnail ownership records (both held by the uploading user, as the
handler's reservation phase established) are both deleted, the queue is
left unchanged, and the request terminates with the 503 "Process queue
full" failure — the reservation is fully released.  The path-distinctness
hypotheses record that the job's temp source path and the two serve paths
are distinct data paths, as `createVideoToTranscode` builds them. -/
theorem C3_admission_rollback (fs : FS) (q : workqueue.WorkQueue Job)
    (video : Job) (user : String)
    (hfull : (q.AddIfSpace video).2 = false)
    (hv : markerAt fs video.servePath = some user)
    (ht : markerAt fs video.thumbServePath = some user)
    (hne : video.servePath ≠ video.thumbServePath)
    (h1 : endsOwner video.servePath = false)
    (h2 : endsOwner video.thumbServePath = false)
    (h3 : video.srcPath ≠ ownedfile.getOwnerPath video.servePath)
    (h4 : video.srcPath ≠ ownedfile.getOwnerPath video.thumbServePath) :
    (uploadHandlerAdmit OsEnv.clean fs q video user).2.1 = q
    ∧ (uploadHandlerAdmit OsEnv.clean fs q video user).2.2.1 = 503
    ∧ (uploadHandlerAdmit OsEnv.clean fs q video user).2.2.2
        = some (GoErr.goError "Process queue full")
    ∧ fsGet (uploadHandlerAdmit OsEnv.clean fs q video user).1
        video.srcPath = none
    ∧ markerAt (uploadHandlerAdmit OsEnv.clean fs q video user).1
        video.servePath = none
    ∧ markerAt (uploadHandlerAdmit OsEnv.clean fs q video user).1
        video.thumbServePath = none := by
  have hcap : ¬ q.items.length < q.cap := by
    intro hlt
    unfold workqueue.WorkQueue.AddIfSpace at hfull
    rw [if_pos hlt] at hfull
    cases hfull
  have hadd : q.AddIfSpace video = (q, false) := by
    unfold workqueue.WorkQueue.AddIfSpace
    rw [if_neg hcap]
  have hfs1 : (osRemove OsEnv.clean fs video.srcPath).2
      = fsErase fs video.srcPath := osRemove_clean_snd fs video.srcPath
  have hm1 : markerAt (fsErase fs video.srcPath) video.servePath
      = some user := by
    unfold markerAt
    rw [fsGet_fsErase, if_neg (fun he => h3 he.symm)]
    exact hv
  have hdel1 : ownedfile.Collection.Delete OsEnv.clean
      (fsErase fs video.srcPath) video.servePath user
      = (none, fsErase (fsErase (fsErase fs video.srcPath) video.servePath)
          (ownedfile.getOwnerPath video.servePath)) :=
    delete_clean_ok _ video.servePath user hm1
  have hm2 : markerAt (fsErase (fsErase (fsErase fs video.srcPath)
      video.servePath) (ownedfile.getOwnerPath video.servePath))
      video.thumbServePath = some user := by
    unfold markerAt
    rw [fsGet_fsErase,
      if_neg (fun he => hne (ownerPath_inj he).symm),
      fsGet_fsErase,
      if_neg (fun he =>
        (ne_ownerPath_of_endsOwner_false video.thumbServePath h1) he.symm),
      fsGet_fsErase, if_neg (fun he => h4 he.symm)]
    exact ht
  have hdel2 : ownedfile.Collection.Delete OsEnv.clean
      (fsErase (fsErase (fsErase fs video.srcPath) video.servePath)
        (ownedfile.getOwnerPath video.servePath)) video.thumbServePath user
      = (none, fsErase (fsErase (fsErase (fsErase (fsErase fs video.srcPath)
          video.servePath) (ownedfile.getOwnerPath video.servePath))
          video.thumbServePath)
          (ownedfile.getOwnerPath video.thumbServePath)) :=
    delete_clean_ok _ video.thumbServePath user hm2
  have hout : uploadHandlerAdmit OsEnv.clean fs q video user
      = (fsErase (fsErase (fsErase (fsErase (fsErase fs video.srcPath)
          video.servePath) (ownedfile.getOwnerPath video.servePath))
          video.thumbServePath)
          (ownedfile.getOwnerPath video.thumbServePath),
         q, 503, some (GoErr.goError "Process queue full")) := by
    unfold uploadHandlerAdmit
    rw [hadd]
    dsimp only
    rw [hfs1, hdel1]
    dsimp only
    rw [hdel2]
  rw [hout]
  refine ⟨rfl, rfl, rfl, ?_, ?_, ?_⟩
  · dsimp only
    apply fsGet_fsErase_none
    apply fsGet_fsErase_none
    apply fsGet_fsErase_none
    apply fsGet_fsErase_none
    rw [fsGet_fsErase, if_pos rfl]
  · dsimp only
    unfold markerAt
    rw [fsGet_fsErase,
      if_neg (fun he => hne (ownerPath_inj he)),
      fsGet_fsErase,
      if_neg (fun he =>
        (ne_ownerPath_of_endsOwner_false video.servePath h2) he.symm),
      fsGet_fsErase, if_pos rfl]
  · dsimp only
    unfold markerAt
    rw [fsGet_fsErase, if_pos rfl]

/-- The configuration used by the concrete rollback witness. -/
def cfgW : Config := ⟨"tmp", "srv", "http://media", "http://api"⟩

/-- The job used by the concrete rollback witness: the job the handler
builds for token `"t"` and user `"alice"`. -/
def videoW : Job :=
  createVideoToTranscode cfgW "t" (pathJoin "srv" ("t" ++ ".mp4"))
    (pathJoin "srv" ("t" ++ ".jpg")) "alice"

/-- The filesystem of the concrete rollback witness: both reservations
held by `"alice"`, and the committed source file present. -/
def fsW : FS :=
  [("srv/t.mp4.owner", "alice"), ("srv/t.jpg.owner", "alice"),
   ("tmp/t.src.mp4", "videobytes")]

/-- C3, witness: the rollback computed on a concrete full queue (capacity
exhausted), reservation markers and source file present. -/
theorem C3_admission_rollback_witness :
    (uploadHandlerAdmit OsEnv.clean fsW ⟨0, []⟩ videoW "alice").2.1
        = (⟨0, []⟩ : workqueue.WorkQueue Job)
    ∧ (uploadHandlerAdmit OsEnv.clean fsW ⟨0, []⟩ videoW "alice").2.2.1 = 503
    ∧ (uploadHandlerAdmit OsEnv.clean fsW ⟨0, []⟩ videoW "alice").2.2.2
        = some (GoErr.goError "Process queue full")
    ∧ fsGet (uploadHandlerAdmit OsEnv.clean fsW ⟨0, []⟩ videoW "alice").1
        videoW.srcPath = none
    ∧ markerAt (uploadHandlerAdmit OsEnv.clean fsW ⟨0, []⟩ videoW "alice").1
        videoW.servePath = none
    ∧ markerAt (uploadHandlerAdmit OsEnv.clean fsW ⟨0, []⟩ videoW "alice").1
        videoW.thumbServePath = none :=
  C3_admission_rollback fsW ⟨0, []⟩ videoW "alice" (by decide) (by decide)
    (by decide) (by decide) (by decide) (by decide) (by decide) (by decide)

theorem addAllIfSpace_ok {α : Type} (q : workqueue.WorkQueue α) (ws : List α)
    (h : q.items.length + ws.length ≤ q.cap) :
    workqueue.addAllIfSpace q ws = ({ q with items := q.items ++ ws }, true) := by
  induction ws generalizing q with
  | nil => simp [workqueue.addAllIfSpace]
  | cons w ws ih =>
    unfold workqueue.addAllIfSpace workqueue.WorkQueue.AddIfSpace
    rw [if_pos (by simp only [List.length_cons] at h; omega)]
    dsimp only
    rw [ih { q with items := q.items ++ [w] }
      (by simp only [List.length_append, List.length_cons, List.length_nil] at h ⊢
          omega)]
    simp

/-- C4: for the work queue the constructor builds (channel capacity 1024),
after filling it with capacity-many successful `AddIfSpace` calls and no
executor draining anything, the next `AddIfSpace` returns false without
enqueuing; in the same full state a blocking send cannot complete — the
caller stays suspended — until an executor drains one item, after which it
can, and a completed blocking send always enqueues (it has no failure
outcome to report). -/
theorem C4_pool_admission (ws : List Nat) (w : Nat)
    (hlen : ws.length = workqueue.chanCap) :
    (workqueue.addAllIfSpace (workqueue.New Nat 4) ws
        = (⟨workqueue.chanCap, ws⟩, true))
    ∧ (workqueue.WorkQueue.AddIfSpace ⟨workqueue.chanCap, ws⟩ w
        = (⟨workqueue.chanCap, ws⟩, false))
    ∧ (¬ ∃ q', workqueue.WQStep workqueue.chanCap ws
        (workqueue.WQEvent.addBlockingDone w) q')
    ∧ (∀ x rest, ws = x :: rest →
        workqueue.WQStep workqueue.chanCap ws (workqueue.WQEvent.drain x) rest
        ∧ workqueue.WQStep workqueue.chanCap rest
            (workqueue.WQEvent.addBlockingDone w) (rest ++ [w]))
    ∧ (∀ qa qb : List Nat, workqueue.WQStep workqueue.chanCap qa
        (workqueue.WQEvent.addBlockingDone w) qb → qb = qa ++ [w]) := by
  have hfill : workqueue.addAllIfSpace (workqueue.New Nat 4) ws
      = (⟨workqueue.chanCap, ws⟩, true) := by
    have h := addAllIfSpace_ok (workqueue.New Nat 4) ws
      (by simp [workqueue.New, hlen])
    simpa [workqueue.New] using h
  refine ⟨hfill, ?_, ?_, ?_, ?_⟩
  · unfold workqueue.WorkQueue.AddIfSpace
    rw [if_neg (by simp [hlen])]
  · rintro ⟨q', hstep⟩
    cases hstep with
    | blockingDone _ _ h => omega
  · intro x rest hws
    subst hws
    have hrest : rest.length < workqueue.chanCap := by
      simp only [List.length_cons] at hlen
      omega
    exact ⟨workqueue.WQStep.drainItem x rest,
      workqueue.WQStep.blockingDone rest w hrest⟩
  · intro qa qb hstep
    cases hstep with
    | blockingDone _ _ h => rfl

/-- C4, witness: the 1025th non-blocking submission on the concretely
filled queue reports failure and enqueues nothing. -/
theorem C4_pool_admission_witness :
    workqueue.WorkQueue.AddIfSpace
        ⟨workqueue.chanCap, List.range workqueue.chanCap⟩ 7
      = (⟨workqueue.chanCap, List.range workqueue.chanCap⟩, false) :=
  (C4_pool_admission (List.range workqueue.chanCap) 7
    (List.length_range workqueue.chanCap)).2.1

theorem splitSepL_ne_nil (sep : Char) (l : List Char) :
    splitSepL sep l ≠ [] := by
  cases l with
  | nil => exact fun h => List.noConfusion h
  | cons c rest =>
    unfold splitSepL
    cases splitSepL sep rest with
    | nil => exact fun h => List.noConfusion h
    | cons h t =>
      by_cases hc : c = sep <;> simp [hc]

theorem goSplitSlash_ne_nil (s : String) : goSplitSlash s ≠ [] := by
  unfold goSplitSlash
  intro h
  exact splitSepL_ne_nil '/' s.data (List.map_eq_nil_iff.mp h)

theorem scanTokenOf_no_slash (name : String) (h : '/' ∉ name.data) :
    scanTokenOf name = goTrimSuffix name ".src.mp4" := by
  unfold scanTokenOf
  rw [goSplitSlash_no_slash name h]
  rfl

theorem no_slash_append (t : String) (h : '/' ∉ t.data) :
    '/' ∉ (t ++ ".src.mp4").data := by
  rw [String.data_append]
  intro hmem
  rcases List.mem_append.mp hmem with h1 | h2
  · exact h h1
  · exact absurd h2 (by decide)

theorem scanTokenOf_roundtrip (t : String) (h : '/' ∉ t.data) :
    scanTokenOf (t ++ ".src.mp4") = t := by
  rw [scanTokenOf_no_slash _ (no_slash_append t h)]
  exact goTrimSuffix_append t ".src.mp4"

theorem scanEntry_considered_ne (cfg : Config) (env : OsEnv) (fs : FS)
    (q : workqueue.WorkQueue Job) (e : DirEntry)
    (hd : e.isDir = false) (hs : goHasSuffix e.name ".src.mp4" = true) :
    (scanEntry cfg env fs q e).2 ≠ ScanOutcome.notConsidered
    ∧ (scanEntry cfg env fs q e).2 ≠ ScanOutcome.tokenFail := by
  have hlen : ¬ ((goSplitSlash e.name).length = 0) := fun h =>
    goSplitSlash_ne_nil e.name (List.length_eq_zero.mp h)
  simp only [scanEntry]
  rw [if_neg (by simp [hd]), if_neg (by simp [hs]), if_neg hlen]
  cases hro : ownedfile.Collection.ReadOwner env fs
      (scanServeVideoPath cfg (scanTokenOf e.name)) with
  | error e1 => exact ⟨fun h => ScanOutcome.noConfusion h,
      fun h => ScanOutcome.noConfusion h⟩
  | ok vo =>
    cases hto : ownedfile.Collection.ReadOwner env fs
        (scanServeThumbPath cfg (scanTokenOf e.name)) with
    | error e2 => exact ⟨fun h => ScanOutcome.noConfusion h,
        fun h => ScanOutcome.noConfusion h⟩
    | ok tw =>
      dsimp only
      by_cases hvt : vo = tw
      · rw [if_neg (not_not_intro hvt)]
        cases hai : q.AddIfSpace (createVideoToTranscode cfg
            (scanTokenOf e.name) (scanServeVideoPath cfg (scanTokenOf e.name))
            (scanServeThumbPath cfg (scanTokenOf e.name)) vo) with
        | mk q1 b =>
          cases b
          · exact ⟨fun h => ScanOutcome.noConfusion h,
              fun h => ScanOutcome.noConfusion h⟩
          · exact ⟨fun h => ScanOutcome.noConfusion h,
              fun h => ScanOutcome.noConfusion h⟩
      · rw [if_pos hvt]
        exact ⟨fun h => ScanOutcome.noConfusion h,
          fun h => ScanOutcome.noConfusion h⟩

theorem scanEntry_notConsidered_iff (cfg : Config) (env : OsEnv) (fs : FS)
    (q : workqueue.WorkQueue Job) (e : DirEntry) :
    ((scanEntry cfg env fs q e).2 = ScanOutcome.notConsidered
      ↔ (e.isDir = true ∨ goHasSuffix e.name ".src.mp4" = false)) := by
  by_cases hd : e.isDir = true
  · simp [scanEntry, hd]
  · have hd' : e.isDir = false := by simpa using hd
    by_cases hs : goHasSuffix e.name ".src.mp4" = true
    · constructor
      · intro h
        exact absurd h (scanEntry_considered_ne cfg env fs q e hd' hs).1
      · rintro (h | h)
        · rw [hd'] at h; cases h
        · rw [hs] at h; cases h
    · have hs' : goHasSuffix e.name ".src.mp4" = false := by simpa using hs
      simp [scanEntry, hd', hs']

theorem scan_outcomes_characterize (cfg : Config) (env : OsEnv) (fs : FS) :
    ∀ (entries : List DirEntry) (q0 : workqueue.WorkQueue Job),
      (queuePendingVideosToTranscode cfg env fs entries q0).2.length
          = entries.length
      ∧ (∀ o en, (o, en) ∈
          ((queuePendingVideosToTranscode cfg env fs entries q0).2.zip
            entries) →
          (o = ScanOutcome.notConsidered
            ↔ (en.isDir = true ∨ goHasSuffix en.name ".src.mp4" = false))) := by
  intro entries
  induction entries with
  | nil =>
    intro q0
    refine ⟨rfl, ?_⟩
    intro o en h
    simp [queuePendingVideosToTranscode] at h
  | cons e es ih =>
    intro q0
    unfold queuePendingVideosToTranscode
    cases hse : scanEntry cfg env fs q0 e with
    | mk q1 out =>
      dsimp only
      cases hq2 : queuePendingVideosToTranscode cfg env fs es q1 with
      | mk q2 outs =>
        dsimp only
        have hrec := ih q1
        rw [hq2] at hrec
        constructor
        · simpa using hrec.1
        · intro o en h
          simp only [List.zip_cons_cons] at h
          rcases List.mem_cons.mp h with heq | htail
          · have h1 : o = out := congrArg Prod.fst heq
            have h2 : en = e := congrArg Prod.snd heq
            rw [h1, h2]
            have hiff := scanEntry_notConsidered_iff cfg env fs q0 e
            rw [hse] at hiff
            exact hiff
          · exact hrec.2 o en htail

/-- C5: the recovery scan considers exactly the non-directory entries of
the temporary-directory listing whose names end in `.src.mp4` (every other
entry's outcome is `notConsidered`, clause with the whole-listing zip at
the end) and its defensive empty-split branch is dead code; for a
considered entry (whose `ReadDir` base name contains no slash), the token
is derived by stripping the `.src.mp4` suffix, and then: a failed
serve-video owner read, a failed serve-thumbnail owner read, or
disagreeing owners skip the token with the corresponding outcome, leaving
the queue (and, the scan being read-only on the store, the filesystem)
untouched; with both owners equal the reconstructed job is submitted via
the non-blocking `AddIfSpace`, being enqueued exactly when the fast pool
has space and skipped with `queueFull` when it is full. -/
theorem C5_recovery_scan (cfg : Config) (env : OsEnv) (fs : FS)
    (q : workqueue.WorkQueue Job) (e : DirEntry)
    (hns : '/' ∉ e.name.data) :
    ((scanEntry cfg env fs q e).2 = ScanOutcome.notConsidered
        ↔ (e.isDir = true ∨ goHasSuffix e.name ".src.mp4" = false))
    ∧ (scanEntry cfg env fs q e).2 ≠ ScanOutcome.tokenFail
    ∧ (e.isDir = false → goHasSuffix e.name ".src.mp4" = true →
        ((∀ e1, ownedfile.Collection.ReadOwner env fs
            (scanServeVideoPath cfg (goTrimSuffix e.name ".src.mp4"))
              = .error e1 →
          scanEntry cfg env fs q e = (q, ScanOutcome.noVideoOwner))
        ∧ (∀ vo e2, ownedfile.Collection.ReadOwner env fs
            (scanServeVideoPath cfg (goTrimSuffix e.name ".src.mp4"))
              = .ok vo →
            ownedfile.Collection.ReadOwner env fs
              (scanServeThumbPath cfg (goTrimSuffix e.name ".src.mp4"))
                = .error e2 →
          scanEntry cfg env fs q e = (q, ScanOutcome.noThumbOwner))
        ∧ (∀ vo tw, ownedfile.Collection.ReadOwner env fs
            (scanServeVideoPath cfg (goTrimSuffix e.name ".src.mp4"))
              = .ok vo →
            ownedfile.Collection.ReadOwner env fs
              (scanServeThumbPath cfg (goTrimSuffix e.name ".src.mp4"))
                = .ok tw →
            vo ≠ tw →
          scanEntry cfg env fs q e = (q, ScanOutcome.ownerMismatch))
        ∧ (∀ o, ownedfile.Collection.ReadOwner env fs
            (scanServeVideoPath cfg (goTrimSuffix e.name ".src.mp4"))
              = .ok o →
            ownedfile.Collection.ReadOwner env fs
              (scanServeThumbPath cfg (goTrimSuffix e.name ".src.mp4"))
                = .ok o →
            q.items.length < q.cap →
          scanEntry cfg env fs q e =
            ({ q with items := q.items ++
                [createVideoToTranscode cfg (goTrimSuffix e.name ".src.mp4")
                  (scanServeVideoPath cfg (goTrimSuffix e.name ".src.mp4"))
                  (scanServeThumbPath cfg (goTrimSuffix e.name ".src.mp4"))
                  o] },
             ScanOutcome.submitted
               (createVideoToTranscode cfg (goTrimSuffix e.name ".src.mp4")
                 (scanServeVideoPath cfg (goTrimSuffix e.name ".src.mp4"))
                 (scanServeThumbPath cfg (goTrimSuffix e.name ".src.mp4"))
                 o)))
        ∧ (∀ o, ownedfile.Collection.ReadOwner env fs
            (scanServeVideoPath cfg (goTrimSuffix e.name ".src.mp4"))
              = .ok o →
            ownedfile.Collection.ReadOwner env fs
              (scanServeThumbPath cfg (goTrimSuffix e.name ".src.mp4"))
                = .ok o →
            q.cap ≤ q.items.length →
          scanEntry cfg env fs q e = (q, ScanOutcome.queueFull))))
    ∧ (∀ (entries : List DirEntry) (q0 : workqueue.WorkQueue Job),
        (queuePendingVideosToTranscode cfg env fs entries q0).2.length
            = entries.length
        ∧ (∀ o en, (o, en) ∈
            ((queuePendingVideosToTranscode cfg env fs entries q0).2.zip
              entries) →
            (o = ScanOutcome.notConsidered
              ↔ (en.isDir = true
                  ∨ goHasSuffix en.name ".src.mp4" = false)))) := by
  have hne_tf : (scanEntry cfg env fs q e).2 ≠ ScanOutcome.tokenFail := by
    by_cases hd : e.isDir = true
    · simp [scanEntry, hd]
    · have hd' : e.isDir = false := by simpa using hd
      by_cases hs : goHasSuffix e.name ".src.mp4" = true
      · exact (scanEntry_considered_ne cfg env fs q e hd' hs).2
      · have hs' : goHasSuffix e.name ".src.mp4" = false := by simpa using hs
        simp [scanEntry, hd', hs']
  refine ⟨scanEntry_notConsidered_iff cfg env fs q e, hne_tf, ?_,
    scan_outcomes_characterize cfg env fs⟩
  intro hd hs
  have hlen : ¬ ((goSplitSlash e.name).length = 0) := fun h =>
    goSplitSlash_ne_nil e.name (List.length_eq_zero.mp h)
  have htok := scanTokenOf_no_slash e.name hns
  have hred : scanEntry cfg env fs q e =
      (match ownedfile.Collection.ReadOwner env fs
          (scanServeVideoPath cfg (goTrimSuffix e.name ".src.mp4")) with
       | .error _ => (q, ScanOutcome.noVideoOwner)
       | .ok videoOwner =>
         match ownedfile.Collection.ReadOwner env fs
             (scanServeThumbPath cfg (goTrimSuffix e.name ".src.mp4")) with
         | .error _ => (q, ScanOutcome.noThumbOwner)
         | .ok thumbOwner =>
           if videoOwner ≠ thumbOwner then (q, ScanOutcome.ownerMismatch)
           else
             match q.AddIfSpace (createVideoToTranscode cfg
                 (goTrimSuffix e.name ".src.mp4")
                 (scanServeVideoPath cfg (goTrimSuffix e.name ".src.mp4"))
                 (scanServeThumbPath cfg (goTrimSuffix e.name ".src.mp4"))
                 videoOwner) with
             | (q1, true) => (q1, ScanOutcome.submitted
                 (createVideoToTranscode cfg (goTrimSuffix e.name ".src.mp4")
                   (scanServeVideoPath cfg (goTrimSuffix e.name ".src.mp4"))
                   (scanServeThumbPath cfg (goTrimSuffix e.name ".src.mp4"))
                   videoOwner))
             | (q1, false) => (q1, ScanOutcome.queueFull)) := by
    simp only [scanEntry]
    rw [if_neg (by simp [hd]), if_neg (by simp [hs]), if_neg hlen, htok]
  refine ⟨?_, ?_, ?_, ?_, ?_⟩
  · intro e1 h
    rw [hred, h]
  · intro vo e2 h1 h2
    rw [hred, h1, h2]
  · intro vo tw h1 h2 hvt
    rw [hred, h1, h2]
    dsimp only
    rw [if_pos hvt]
  · intro o h1 h2 hlt
    rw [hred, h1, h2]
    dsimp only
    rw [if_neg (not_not_intro rfl)]
    unfold workqueue.WorkQueue.AddIfSpace
    rw [if_pos hlt]
  · intro o h1 h2 hge
    rw [hred, h1, h2]
    dsimp only
    rw [if_neg (not_not_intro rfl)]
    unfold workqueue.WorkQueue.AddIfSpace
    rw [if_neg (by omega)]

/-- C5, witness: a concrete leftover source file `t.src.mp4` with both
owners present and agreeing is reconstructed and submitted to a fast pool
with space. -/
theorem C5_recovery_scan_witness :
    scanEntry cfgW OsEnv.clean
        [("srv/t.mp4.owner", "alice"), ("srv/t.jpg.owner", "alice")]
        ⟨2, []⟩ ⟨"t.src.mp4", false⟩
      = (⟨2, [createVideoToTranscode cfgW "t" "srv/t.mp4" "srv/t.jpg"
            "alice"]⟩,
         ScanOutcome.submitted
           (createVideoToTranscode cfgW "t" "srv/t.mp4" "srv/t.jpg"
             "alice")) := by
  have h := ((C5_recovery_scan cfgW OsEnv.clean
      [("srv/t.mp4.owner", "alice"), ("srv/t.jpg.owner", "alice")]
      ⟨2, []⟩ ⟨"t.src.mp4", false⟩ (by decide)).2.2.1 rfl
      (by decide)).2.2.2.1 "alice" rfl rfl (by decide)
  exact h.trans (by decide)

theorem generateThumbnail_frame (tenv : ToolEnv) (env : OsEnv) (fs : FS)
    (video : Job) (relTime : Rat) (r : Path)
    (h1 : r ≠ video.thumbDstPath) (h2 : r ≠ video.thumbServePath) :
    fsGet (generateThumbnail tenv env fs video relTime).2 r = fsGet fs r := by
  unfold generateThumbnail transcode.ExtractDuration
  cases hdur : tenv.durationResult with
  | error e => rfl
  | ok d =>
    dsimp only
    unfold transcode.GenerateThumbnail
    cases hg : tenv.thumbGenErr with
    | some e => rfl
    | none =>
      dsimp only
      have hset : fsGet (fsSet fs video.thumbDstPath tenv.thumbContent) r
          = fsGet fs r := by
        rw [fsGet_fsSet, if_neg h1]
      cases hm : ownedfile.Collection.Move env
          (fsSet fs video.thumbDstPath tenv.thumbContent)
          video.thumbDstPath video.thumbServePath video.owner with
      | mk merr fs2 =>
        have hfs2 : fsGet fs2 r
            = fsGet (fsSet fs video.thumbDstPath tenv.thumbContent) r := by
          have := move_frame env (fsSet fs video.thumbDstPath tenv.thumbContent)
            video.thumbDstPath video.thumbServePath video.owner r h1 h2
          rw [hm] at this
          exact this
        cases merr with
        | some e =>
          dsimp only
          rw [osRemove_frame env fs2 video.thumbDstPath r h1, hfs2, hset]
        | none =>
          dsimp only
          rw [hfs2, hset]

/-- C6: in the fast processing stage every step runs regardless of earlier
failures and the job is always handed on.  For every combination of tool
and OS outcomes: the stage emits exactly its three ordered log records
(rotation probe, thumbnail, low-quality transcode) — each step is logged
and processing continues; a failed rotation probe leaves the job's
rotation at its previous value (the zero default for a freshly constructed
job) while a successful probe stores the probed value; the low-quality
transcode step runs on the thumbnail step's result whatever that outcome
was — in particular, under a clean OS run with the transcode tool
succeeding and the publish authorized, the low-quality rendition is
published at the serve path even if the thumbnail step failed; and the job
is always handed to the slow pool with the blocking submit (enqueued
unconditionally, never dropped). -/
theorem C6_fast_stage_continues (tenv : ToolEnv) (env : OsEnv) (fs : FS)
    (video : Job) (slowQ : workqueue.WorkQueue Job) :
    ((processVideoFast tenv env fs video slowQ).2.2.1
        = slowQ.AddBlocking (processVideoFast tenv env fs video slowQ).2.1)
    ∧ ((processVideoFast tenv env fs video slowQ).2.2.1.items
        = slowQ.items ++ [(processVideoFast tenv env fs video slowQ).2.1])
    ∧ (∀ e, tenv.rotationResult = .error e →
        (processVideoFast tenv env fs video slowQ).2.1.rotation
          = video.rotation)
    ∧ (∀ r, tenv.rotationResult = .ok r →
        (processVideoFast tenv env fs video slowQ).2.1.rotation = r)
    ∧ (∃ e1 e2 e3, (processVideoFast tenv env fs video slowQ).2.2.2
        = [("Extract rotation", e1), ("Generate thumbnail", e2),
           ("Transcode low-quality", e3)])
    ∧ ((processVideoFast tenv env fs video slowQ).1
        = (transcodeVideo tenv env
            (generateThumbnail tenv env fs
              (processVideoFast tenv env fs video slowQ).2.1
              ((3 : Rat)/10)).2
            (processVideoFast tenv env fs video slowQ).2.1
            transcode.Quality.QualityLow).2)
    ∧ (env = OsEnv.clean →
        tenv.transcodeErr .QualityLow = none →
        markerAt fs video.servePath = some video.owner →
        endsOwner video.thumbDstPath = false →
        endsOwner video.thumbServePath = false →
        endsOwner video.dstPath = false →
        fsGet (processVideoFast tenv env fs video slowQ).1 video.servePath
          = some (tenv.transcodeContent .QualityLow)) := by
  have hsplit : ∃ video1 : Job,
      processVideoFast tenv env fs video slowQ
        = ((transcodeVideo tenv env
            (generateThumbnail tenv env fs video1 ((3 : Rat)/10)).2
            video1 .QualityLow).2,
           video1, slowQ.AddBlocking video1,
           [("Extract rotation",
              match tenv.rotationResult with
              | .ok _ => none
              | .error e => some e),
            ("Generate thumbnail",
              (generateThumbnail tenv env fs video1 ((3 : Rat)/10)).1),
            ("Transcode low-quality",
              (transcodeVideo tenv env
                (generateThumbnail tenv env fs video1 ((3 : Rat)/10)).2
                video1 .QualityLow).1)])
      ∧ video1.owner = video.owner
      ∧ video1.servePath = video.servePath
      ∧ video1.dstPath = video.dstPath
      ∧ video1.srcPath = video.srcPath
      ∧ video1.thumbDstPath = video.thumbDstPath
      ∧ video1.thumbServePath = video.thumbServePath
      ∧ (∀ e, tenv.rotationResult = .error e →
          video1.rotation = video.rotation)
      ∧ (∀ r, tenv.rotationResult = .ok r → video1.rotation = r) := by
    unfold processVideoFast transcode.ExtractRotation
    cases hrot : tenv.rotationResult with
    | ok r =>
      refine ⟨{ video with rotation := r }, rfl, rfl, rfl, rfl, rfl, rfl, rfl,
        ?_, ?_⟩
      · intro e he
        exact Except.noConfusion he
      · intro r1 hr1
        injection hr1
    | error e =>
      refine ⟨video, rfl, rfl, rfl, rfl, rfl, rfl, rfl, fun _ _ => rfl, ?_⟩
      intro r1 hr1
      exact Except.noConfusion hr1
  obtain ⟨video1, heq, hown, hserve, hdst, hsrc, htd, hts, hrerr, hrok⟩ :=
    hsplit
  rw [heq]
  refine ⟨rfl, rfl, hrerr, hrok, ⟨_, _, _, rfl⟩, rfl, ?_⟩
  intro henv htr hmark h1 h2 h3
  subst henv
  have hmark1 : markerAt
      (generateThumbnail tenv OsEnv.clean fs video1 ((3 : Rat)/10)).2
      video1.servePath = some video1.owner := by
    unfold markerAt
    rw [generateThumbnail_frame tenv OsEnv.clean fs video1 ((3 : Rat)/10) _
      (by rw [htd, hserve]
          exact (ne_ownerPath_of_endsOwner_false video.servePath h1).symm)
      (by rw [hts, hserve]
          exact (ne_ownerPath_of_endsOwner_false video.servePath h2).symm)]
    rw [hserve, hown]
    exact hmark
  unfold transcodeVideo transcode.TranscodeMP4
  dsimp only
  rw [htr]
  dsimp only
  have hmark2 : markerAt
      (fsSet (generateThumbnail tenv OsEnv.clean fs video1 ((3 : Rat)/10)).2
        video1.dstPath (tenv.transcodeContent .QualityLow))
      video1.servePath = some video1.owner := by
    unfold markerAt
    rw [fsGet_fsSet,
      if_neg (by rw [hdst, hserve]
                 exact (ne_ownerPath_of_endsOwner_false video.servePath
                   h3).symm)]
    exact hmark1
  have hck : ownedfile.rawCheckOwner OsEnv.clean
      (fsSet (generateThumbnail tenv OsEnv.clean fs video1 ((3 : Rat)/10)).2
        video1.dstPath (tenv.transcodeContent .QualityLow))
      video1.servePath video1.owner = none := by
    unfold ownedfile.rawCheckOwner ownedfile.rawReadOwner ioReadFile
    rw [show OsEnv.clean.readErr
      (ownedfile.getOwnerPath video1.servePath) = none from rfl]
    unfold markerAt at hmark2
    rw [hmark2]
    simp
  unfold ownedfile.Collection.Move
  rw [hck]
  dsimp only
  unfold osRename
  rw [show OsEnv.clean.renameErr video1.dstPath video1.servePath = none
    from rfl]
  rw [show fsGet (fsSet (generateThumbnail tenv OsEnv.clean fs video1
      ((3 : Rat)/10)).2 video1.dstPath (tenv.transcodeContent .QualityLow))
      video1.dstPath = some (tenv.transcodeContent .QualityLow) by
    rw [fsGet_fsSet, if_pos rfl]]
  dsimp only
  rw [fsGet_fsSet, hserve, if_pos rfl]

/-- C6, witness: with the rotation probe and the thumbnail failing but the
transcoder succeeding, the stage still logs three records, keeps rotation
0, publishes the low-quality rendition and hands the job to the slow
pool. -/
theorem C6_fast_stage_continues_witness :
    ((processVideoFast
        ⟨.error (.goError "exiftool"), .error (.goError "avprobe"), none,
          "thumb", fun _ => none, fun _ => "mp4"⟩
        OsEnv.clean [("srv/t.mp4.owner", "alice")]
        (createVideoToTranscode cfgW "t" "srv/t.mp4" "srv/t.jpg" "alice")
        ⟨workqueue.chanCap, []⟩).2.1.rotation = (0 : Int))
    ∧ fsGet (processVideoFast
        ⟨.error (.goError "exiftool"), .error (.goError "avprobe"), none,
          "thumb", fun _ => none, fun _ => "mp4"⟩
        OsEnv.clean [("srv/t.mp4.owner", "alice")]
        (createVideoToTranscode cfgW "t" "srv/t.mp4" "srv/t.jpg" "alice")
        ⟨workqueue.chanCap, []⟩).1 "srv/t.mp4" = some "mp4" :=
  ⟨(C6_fast_stage_continues
      ⟨.error (.goError "exiftool"), .error (.goError "avprobe"), none,
        "thumb", fun _ => none, fun _ => "mp4"⟩
      OsEnv.clean [("srv/t.mp4.owner", "alice")]
      (createVideoToTranscode cfgW "t" "srv/t.mp4" "srv/t.jpg" "alice")
      ⟨workqueue.chanCap, []⟩).2.2.1 (.goError "exiftool") rfl,
   (C6_fast_stage_continues
      ⟨.error (.goError "exiftool"), .error (.goError "avprobe"), none,
        "thumb", fun _ => none, fun _ => "mp4"⟩
      OsEnv.clean [("srv/t.mp4.owner", "alice")]
      (createVideoToTranscode cfgW "t" "srv/t.mp4" "srv/t.jpg" "alice")
      ⟨workqueue.chanCap, []⟩).2.2.2.2.2.2 rfl rfl (by decide) (by decide)
      (by decide) (by decide)⟩

/-- C10: recovery reconstruction is a round-trip.  The job built by
`createVideoToTranscode` for a slash-free token `t` has its source file at
`tempBase` under the name `t ++ ".src.mp4"`; the recovery scanner's token
derivation (split on "/", take the last part, strip the `.src.mp4`
suffix) applied to that file name yields `t` again; and the job the
scanner reconstructs from the derived token and the same owner is
structurally identical to the original — the same source, destination,
serve and thumbnail paths (and URLs and owner). -/
theorem C10_token_roundtrip (cfg : Config) (t user : String)
    (h : '/' ∉ t.data) :
    (createVideoToTranscode cfg t (scanServeVideoPath cfg t)
        (scanServeThumbPath cfg t) user).srcPath
      = pathJoin cfg.tempBase (t ++ ".src.mp4")
    ∧ scanTokenOf (t ++ ".src.mp4") = t
    ∧ createVideoToTranscode cfg (scanTokenOf (t ++ ".src.mp4"))
        (scanServeVideoPath cfg (scanTokenOf (t ++ ".src.mp4")))
        (scanServeThumbPath cfg (scanTokenOf (t ++ ".src.mp4"))) user
      = createVideoToTranscode cfg t (scanServeVideoPath cfg t)
        (scanServeThumbPath cfg t) user := by
  have hrt := scanTokenOf_roundtrip t h
  exact ⟨rfl, hrt, by rw [hrt]⟩

/-- C10, witness: the round-trip computed for the concrete token
`"video-x"`. -/
theorem C10_token_roundtrip_witness :
    scanTokenOf ("video-x" ++ ".src.mp4") = "video-x"
    ∧ createVideoToTranscode cfgW (scanTokenOf ("video-x" ++ ".src.mp4"))
        (scanServeVideoPath cfgW (scanTokenOf ("video-x" ++ ".src.mp4")))
        (scanServeThumbPath cfgW (scanTokenOf ("video-x" ++ ".src.mp4")))
        "alice"
      = createVideoToTranscode cfgW "video-x"
          (scanServeVideoPath cfgW "video-x")
          (scanServeThumbPath cfgW "video-x") "alice" :=
  ⟨(C10_token_roundtrip cfgW "video-x" "alice" (by decide)).2.1,
   (C10_token_roundtrip cfgW "video-x" "alice" (by decide)).2.2⟩

end GoVT
